import Mathlib

/-!
Shallow embedding of the host-side `Program` compiler/allocator and the
device-side dispatch executor of `tt_metal/impl/program.cpp`, together with
proofs of the spec's claims about them.

C++ `std::map` containers are modelled as association lists; fatal
`log_fatal` / `log_assert` / `TT_ASSERT` paths are modelled as `Except.error`
results (a fatal error terminates the process, so no state after an error is
observable).
-/

/-- Fixed number of circular-buffer index slots per core.  The constant comes
from the device common header, which is not part of the sources; its exact
value does not affect any claim, only the slot-range boundary. -/
def NUM_CIRCULAR_BUFFERS : Nat := 32

/-- Modelled from the spec: the fixed reserved base of the per-core scratch
(L1) region; `CircularBufferAllocator`'s initial `l1_regions` holds the single
empty region starting there (the constructor lives in `program.hpp`, which is
not under `src/`; `validate_circular_buffer_region` shows the default pair
`(L1_UNRESERVED_BASE, L1_UNRESERVED_BASE)`). -/
def L1_UNRESERVED_BASE : Nat := 98304

/-- Logical 2D core coordinate (`CoreCoord`). -/
structure CoreCoord where
  x : Nat
  y : Nat
deriving DecidableEq, Repr

/-- Inclusive rectangular core range (`CoreRange`); `start` and `end_` are the
corner coordinates (`end` in the source). -/
structure CoreRange where
  start : CoreCoord
  end_ : CoreCoord
deriving DecidableEq, Repr

/-- Inclusive integer range `[a, b]` as a list, empty when `b < a`; mirrors a
C++ loop `for (v = a; v <= b; v++)`. -/
def rangeIncl (a b : Nat) : List Nat :=
  (List.range (b + 1 - a)).map (fun i => a + i)

/-- All cores of a `CoreRange`, in the `for x { for y }` nesting order used
throughout `program.cpp`. -/
def CoreRange.cores (cr : CoreRange) : List CoreCoord :=
  (rangeIncl cr.start.x cr.end_.x).flatMap
    (fun x => (rangeIncl cr.start.y cr.end_.y).map (fun y => CoreCoord.mk x y))

/-- A `CoreRangeSet` is its list of ranges. -/
abbrev CoreRangeSet := List CoreRange

/-- All cores covered by a list of core ranges, range by range. -/
def coresOfRanges : List CoreRange → List CoreCoord
  | [] => []
  | r :: rest => r.cores ++ coresOfRanges rest

/-- Association-list lookup, modelling `std::map::find` / `at`. -/
def alookup {α β : Type} [DecidableEq α] : List (α × β) → α → Option β
  | [], _ => none
  | (a, b) :: rest, a' => if a' = a then some b else alookup rest a'

/-- Replace the value bound to a key, leaving the map unchanged when the key is
absent; models mutation through a `std::map` iterator/reference. -/
def aupdate {α β : Type} [DecidableEq α] : List (α × β) → α → β → List (α × β)
  | [], _, _ => []
  | (a, b) :: rest, a', b' =>
    if a' = a then (a, b') :: rest else (a, b) :: aupdate rest a' b'

/-- Insert-or-update, modelling `std::map::operator[]` followed by a write. -/
def aupsert {α β : Type} [DecidableEq α] (m : List (α × β)) (a : α) (b : β) :
    List (α × β) :=
  match alookup m a with
  | some _ => aupdate m a b
  | none => m ++ [(a, b)]

/-- Per-core circular-buffer allocator state (`Program::CircularBufferAllocator`):
the occupied slot indices (a `std::bitset<NUM_CIRCULAR_BUFFERS>`) and the
ordered occupied byte regions `[first, second)` of L1 (`l1_regions`). -/
structure CircularBufferAllocator where
  indices : List Nat
  l1_regions : List (Nat × Nat)
deriving DecidableEq, Repr

/-- Modelled from the spec: the freshly constructed allocator (constructor in
`program.hpp`, not under `src/`) — no slot occupied, one empty region at the
reserved base. -/
def CircularBufferAllocator.init : CircularBufferAllocator :=
  { indices := [], l1_regions := [(L1_UNRESERVED_BASE, L1_UNRESERVED_BASE)] }

/-- The source of `Program::CircularBufferAllocator::add_index`.  Note the
range guard is `index > NUM_CIRCULAR_BUFFERS` exactly as written in the code
(line 194), so `index = NUM_CIRCULAR_BUFFERS` passes it. -/
def CircularBufferAllocator.add_index (cba : CircularBufferAllocator)
    (index : Nat) : Except String CircularBufferAllocator :=
  if index > NUM_CIRCULAR_BUFFERS then
    .error "Invalid circular buffer index: out of range"
  else if index ∈ cba.indices then
    .error "Invalid circular buffer index: another circular buffer already exists"
  else
    .ok { cba with indices := index :: cba.indices }

/-- The source of `get_address_candidate`: the end of the last occupied L1
region (`l1_regions.back().second`). -/
def CircularBufferAllocator.get_address_candidate
    (cba : CircularBufferAllocator) : Nat :=
  (cba.l1_regions.getLastD (0, 0)).2

/-- The source of `mark_address`: requires `address >= last_region.second`
(fatal `log_assert` otherwise); on equality extends the last region in place,
otherwise appends a new region `[address, address + size)`. -/
def CircularBufferAllocator.mark_address (cba : CircularBufferAllocator)
    (address size : Nat) : Except String CircularBufferAllocator :=
  let last := cba.l1_regions.getLastD (0, 0)
  if address < last.2 then
    .error "Local buffer address has to append to last L1 region or be at a higher address"
  else if address = last.2 then
    .ok { cba with l1_regions := cba.l1_regions.dropLast ++ [(last.1, last.2 + size)] }
  else
    .ok { cba with l1_regions := cba.l1_regions ++ [(address, address + size)] }

/-- Modelled from the spec: `reset_available_addresses` (declared in
`program.hpp`, not under `src/`) returns the allocator's address state to its
pre-allocation form — the single empty region at the reserved base; the
occupied-slot indices are registration state and are kept. -/
def CircularBufferAllocator.reset_available_addresses
    (cba : CircularBufferAllocator) : CircularBufferAllocator :=
  { cba with l1_regions := [(L1_UNRESERVED_BASE, L1_UNRESERVED_BASE)] }

/-- Circular-buffer configuration (`CircularBufferConfig`): total byte size,
the buffer-index slots it occupies, and the optional caller-requested base
address. -/
structure CircularBufferConfig where
  total_size : Nat
  buffer_indices : List Nat
  requested_address : Option Nat
deriving DecidableEq, Repr

/-- A `CircularBuffer`: a config bound to a core-range set, plus the resolved
base address once allocation has run (`std::nullopt` before). -/
structure CircularBuffer where
  core_ranges : CoreRangeSet
  config : CircularBufferConfig
  address : Option Nat
deriving DecidableEq, Repr

/-- `CircularBuffer::size()` returns the config's total size. -/
def CircularBuffer.size (cb : CircularBuffer) : Nat := cb.config.total_size

/-- The cores a circular buffer is placed on, in the enumeration order of
`allocate_circular_buffers` (ranges in order, `x` outer, `y` inner). -/
def CircularBuffer.cores (cb : CircularBuffer) : List CoreCoord :=
  coresOfRanges cb.core_ranges

/-- Per-core allocator map (`per_core_cb_allocator_`, a `std::map`). -/
abbrev PerCoreCBAlloc := List (CoreCoord × CircularBufferAllocator)

/-- The candidate-collection loop of `allocate_circular_buffers`: for every
core of the buffer, look its allocator up (`at` throws when absent) and fold
the maximum of `get_address_candidate` into the accumulator, which starts out
empty (`std::nullopt`). -/
def collectCandidates (alloc : PerCoreCBAlloc) :
    List CoreCoord → Option Nat → Except String (Option Nat)
  | [], acc => .ok acc
  | c :: rest, acc =>
    match alookup alloc c with
    | none => .error "per_core_cb_allocator_.at: core has no allocator"
    | some cba =>
      let cand := cba.get_address_candidate
      collectCandidates alloc rest
        (some (match acc with | none => cand | some m => Nat.max m cand))

/-- The marking loop of `allocate_circular_buffers`: `mark_address` the
resolved address and size into every touched core's allocator, in order. -/
def markAllCores (address size : Nat) :
    PerCoreCBAlloc → List CoreCoord → Except String PerCoreCBAlloc
  | alloc, [] => .ok alloc
  | alloc, c :: rest =>
    match alookup alloc c with
    | none => .error "per_core_cb_allocator_.at: core has no allocator"
    | some cba =>
      match cba.mark_address address size with
      | .error e => .error e
      | .ok cba2 => markAllCores address size (aupdate alloc c cba2) rest

/-- One iteration of the buffer loop in `Program::allocate_circular_buffers`
(lines 284-320): compute the maximum candidate over the buffer's cores,
override it with a requested address (fatal when the request is below the
computed maximum), mark the resolved address into every touched allocator and
set it on the buffer.  An empty core list leaves `computed_addr` empty and the
code's `computed_addr.value()` throws. -/
def allocateOneCB (alloc : PerCoreCBAlloc) (cb : CircularBuffer) :
    Except String (PerCoreCBAlloc × CircularBuffer) :=
  match collectCandidates alloc cb.cores none with
  | .error e => .error e
  | .ok none => .error "computed_addr.value: no value"
  | .ok (some computed) =>
    let resolvedE : Except String Nat :=
      match cb.config.requested_address with
      | some req =>
        if req < computed then
          .error "Specified address should be at max local buffer region for core range set"
        else .ok req
      | none => .ok computed
    match resolvedE with
    | .error e => .error e
    | .ok resolved =>
      match markAllCores resolved cb.size alloc cb.cores with
      | .error e => .error e
      | .ok alloc2 => .ok (alloc2, { cb with address := some resolved })

/-- The buffer loop of `allocate_circular_buffers`, processing the registered
circular buffers in registration order. -/
def allocateCBs : PerCoreCBAlloc → List CircularBuffer →
    Except String (PerCoreCBAlloc × List CircularBuffer)
  | alloc, [] => .ok (alloc, [])
  | alloc, cb :: rest =>
    match allocateOneCB alloc cb with
    | .error e => .error e
    | .ok (alloc1, cb1) =>
      match allocateCBs alloc1 rest with
      | .error e => .error e
      | .ok (alloc2, rest1) => .ok (alloc2, cb1 :: rest1)

/-- Processor roles (`RISCV` enum); `TRISC` stands for any value outside the
three roles handled by `KernelGroup::update` (its `default:` branch). -/
inductive RISCV where
  | BRISC
  | NCRISC
  | COMPUTE
  | TRISC
deriving DecidableEq, Repr

/-- A kernel: unique id, target processor role, and the core ranges it runs
on.  Name, hash and binary state play no part in the claims. -/
structure Kernel where
  id : Nat
  processor : RISCV
  core_ranges : CoreRangeSet
deriving DecidableEq, Repr

/-- `Kernel::logical_cores()`: the cores covered by the kernel's ranges. -/
def Kernel.logical_cores (k : Kernel) : List CoreCoord :=
  coresOfRanges k.core_ranges

/-- The value of the `RUN_MSG_GO` run sentinel (device header constant, not
under `src/`; its value is irrelevant to the claims). -/
def RUN_MSG_GO : Nat := 128

/-- Per-core kernel group (`KernelGroup`): at most one kernel id per role plus
the launch-message template fields set by `update`. -/
structure KernelGroup where
  riscv0_id : Option Nat
  riscv1_id : Option Nat
  compute_id : Option Nat
  enable_brisc : Bool
  enable_ncrisc : Bool
  enable_triscs : Bool
  run : Nat
deriving DecidableEq, Repr

/-- `KernelGroup::KernelGroup()`: empty roles, launch message run state set to
the go sentinel. -/
def KernelGroup.init : KernelGroup :=
  { riscv0_id := none, riscv1_id := none, compute_id := none,
    enable_brisc := false, enable_ncrisc := false, enable_triscs := false,
    run := RUN_MSG_GO }

/-- The source of `KernelGroup::update` (lines 139-157): each supported role
assignment overwrites the stored id and sets the enable flag; an unsupported
processor hits the fatal `default:` assert. -/
def KernelGroup.update (g : KernelGroup) (k : Kernel) :
    Except String KernelGroup :=
  match k.processor with
  | RISCV.BRISC => .ok { g with riscv0_id := some k.id, enable_brisc := true }
  | RISCV.NCRISC => .ok { g with riscv1_id := some k.id, enable_ncrisc := true }
  | RISCV.COMPUTE => .ok { g with compute_id := some k.id, enable_triscs := true }
  | RISCV.TRISC => .error "Unsupported kernel processor!"

/-- The stored kernel id of a group for one processor role. -/
def KernelGroup.role (g : KernelGroup) : RISCV → Option Nat
  | RISCV.BRISC => g.riscv0_id
  | RISCV.NCRISC => g.riscv1_id
  | RISCV.COMPUTE => g.compute_id
  | RISCV.TRISC => none

/-- Core-to-kernel-group map (`core_to_kernel_group_`, a `std::map`). -/
abbrev KernelGroupMap := List (CoreCoord × KernelGroup)

/-- The inner loop of `Program::core_to_kernel_group`: for each core of one
kernel, default-construct the group if absent (`operator[]`) and `update` it
with the kernel. -/
def updateGroupsForCores (k : Kernel) :
    KernelGroupMap → List CoreCoord → Except String KernelGroupMap
  | gs, [] => .ok gs
  | gs, c :: rest =>
    let g := (alookup gs c).getD KernelGroup.init
    match g.update k with
    | .error e => .error e
    | .ok g2 => updateGroupsForCores k (aupsert gs c g2) rest

/-- The outer loop of `Program::core_to_kernel_group`, over the kernels in
ascending id order (`kernel_by_id_` map iteration). -/
def coreToKernelGroupList : List Kernel → KernelGroupMap →
    Except String KernelGroupMap
  | [], gs => .ok gs
  | k :: rest, gs =>
    match updateGroupsForCores k gs k.logical_cores with
    | .error e => .error e
    | .ok gs2 => coreToKernelGroupList rest gs2

/-- A `Program`, restricted to the state the claims are about: the kernels in
`kernel_by_id_` iteration (ascending id) order, the registered circular
buffers in registration order, the per-core allocator map, and the two dirty
flags. -/
structure Program where
  kernels : List Kernel
  circular_buffers_ : List CircularBuffer
  per_core_cb_allocator_ : PerCoreCBAlloc
  compile_needed_ : Bool
  circular_buffer_allocation_needed_ : Bool
deriving DecidableEq, Repr

/-- The source of `Program::core_to_kernel_group` (lines 165-176), as the pure
recomputation that function caches (the cache is cleared by every
`add_kernel`, so the cached value always equals this recomputation). -/
def Program.core_to_kernel_group (p : Program) : Except String KernelGroupMap :=
  coreToKernelGroupList p.kernels []

/-- The source of `Program::kernels_on_core` (lines 159-163): a map lookup in
the derived group map, `none` modelling the returned null pointer. -/
def Program.kernels_on_core (p : Program) (c : CoreCoord) :
    Except String (Option KernelGroup) :=
  match p.core_to_kernel_group with
  | .error e => .error e
  | .ok gs => .ok (alookup gs c)

/-- The source of `Program::invalidate_circular_buffer_allocation` (lines
269-277): no-op when the dirty flag is already set, otherwise reset every
per-core allocator's addresses and re-arm the flag. -/
def Program.invalidate_circular_buffer_allocation (p : Program) : Program :=
  if p.circular_buffer_allocation_needed_ then p
  else
    { p with
      per_core_cb_allocator_ :=
        p.per_core_cb_allocator_.map
          (fun ca => (ca.1, ca.2.reset_available_addresses)),
      circular_buffer_allocation_needed_ := true }

/-- The source of `Program::allocate_circular_buffers` (lines 279-322): no-op
when the allocation-dirty flag is clear; otherwise run the buffer loop and
clear the flag. -/
def Program.allocate_circular_buffers (p : Program) : Except String Program :=
  if p.circular_buffer_allocation_needed_ = false then .ok p
  else
    match allocateCBs p.per_core_cb_allocator_ p.circular_buffers_ with
    | .error e => .error e
    | .ok (alloc, cbs) =>
      .ok { p with
            per_core_cb_allocator_ := alloc,
            circular_buffers_ := cbs,
            circular_buffer_allocation_needed_ := false }

/-- The smallest id strictly above every existing kernel id; models the global
monotone kernel-id counter handing fresh ids to newly created kernels. -/
def freshKernelId (ks : List Kernel) : Nat :=
  ks.foldl (fun m k => Nat.max m (k.id + 1)) 0

/-- The per-role missing-core set of `Program::add_blank_kernels` (lines
419-427): the single-core ranges of every core whose group leaves the given
role empty (`KernelGroup.role pr` is definitionally the `riscv0_id` /
`riscv1_id` / `compute_id` field test written in the source). -/
def missingRanges (gs : KernelGroupMap) (pr : RISCV) : List CoreRange :=
  (gs.filter (fun e => e.2.role pr = none)).map (fun e => CoreRange.mk e.1 e.1)

/-- The blank kernels `add_blank_kernels` registers: one per role whose
missing-core set is nonempty, covering exactly those cores, with fresh ids. -/
def blankKernelsFor (ks : List Kernel) (gs : KernelGroupMap) : List Kernel :=
  let i := freshKernelId ks
  (if missingRanges gs RISCV.BRISC = [] then []
   else [Kernel.mk i RISCV.BRISC (missingRanges gs RISCV.BRISC)]) ++
  (if missingRanges gs RISCV.NCRISC = [] then []
   else [Kernel.mk (i + 1) RISCV.NCRISC (missingRanges gs RISCV.NCRISC)]) ++
  (if missingRanges gs RISCV.COMPUTE = [] then []
   else [Kernel.mk (i + 2) RISCV.COMPUTE (missingRanges gs RISCV.COMPUTE)])

/-- The source of `Program::add_blank_kernels` (lines 411-450): from the
derived group map collect, per role, the cores missing that role, and when a
set is nonempty register one blank kernel of that role covering exactly those
cores; registration (`add_kernel`) appends them and sets the compile-dirty
flag. -/
def Program.add_blank_kernels (p : Program) : Except String Program :=
  match p.core_to_kernel_group with
  | .error e => .error e
  | .ok gs =>
    .ok { p with
          kernels := p.kernels ++ blankKernelsFor p.kernels gs,
          compile_needed_ :=
            if blankKernelsFor p.kernels gs = [] then p.compile_needed_
            else true }

/-- The device collaborator state `Program::compile` checks: only the
initialization flag matters to the claims. -/
structure Device where
  is_initialized : Bool
deriving DecidableEq, Repr

/-- Process-global tool state read by `Program::compile`:
`getDeviceProfilerState()` and `tt_is_print_server_running()`. -/
structure CompileContext where
  profiler_active : Bool
  print_server_running : Bool
deriving DecidableEq, Repr

/-- The source of `Program::compile` (lines 465-536): return immediately when
the compile-dirty flag is clear; fatal assert when the device is not
initialized; fatal assert when the profiler is active while the debug-print
server runs; then insert blank kernels, compile every kernel, and clear the
flag.  The parallel hash-cached binary generation and loading are abstracted
into the returned generation-work count (number of kernels submitted to the
compile loop); the flag-clear path does none of it and returns count 0. -/
def Program.compile (p : Program) (device : Device) (ctx : CompileContext) :
    Except String (Program × Nat) :=
  if p.compile_needed_ = false then .ok (p, 0)
  else if device.is_initialized = false then
    .error "Device needs to be initialized before program compilation!"
  else if ctx.profiler_active && ctx.print_server_running then
    .error "Debug print server is running, profiling is not allowed"
  else
    match p.add_blank_kernels with
    | .error e => .error e
    | .ok p1 =>
      .ok ({ p1 with compile_needed_ := false }, p1.kernels.length)

/-- Fixed staging-region base used by the dispatch executor
(`DEVICE_COMMAND_DATA_ADDR`, device header constant, not under `src/`). -/
def DEVICE_COMMAND_DATA_ADDR : Nat := 150528

/-- Mailbox offset of the launch message on a worker core
(`GET_MAILBOX_ADDRESS_DEV(launch)`, device header constant, not under
`src/`). -/
def LAUNCH_MAILBOX_ADDR : Nat := 16

/-- The fixed launch descriptor the dispatcher multicasts (`launch_msg`,
lines 561-569): every role enabled and the go run sentinel. -/
structure LaunchMsg where
  enable_brisc : Bool
  enable_ncrisc : Bool
  enable_triscs : Bool
  run : Nat
deriving DecidableEq, Repr

/-- The static `launch_msg` value of the dispatch kernel. -/
def launch_msg_static : LaunchMsg :=
  { enable_brisc := true, enable_ncrisc := true, enable_triscs := true,
    run := RUN_MSG_GO }

/-- Observable actions of the device-side dispatch executor, in program
order. -/
inductive DispatchAction where
  | setMessageCounter (value : Nat)
  | multicastLaunch (dst_addr num_receivers : Nat) (msg : LaunchMsg)
  | writeBarrier
  | spinUntilCounter (target : Nat)
deriving DecidableEq, Repr

/-- The source of `launch_program` (lines 762-791) as its action trace:
nothing when the expected worker count is zero; otherwise reset the dispatch
completion counter to zero, multicast the fixed launch descriptor to each
group's mailbox address with that group's receiver count (groups read as
`command_ptr` word pairs), barrier, and busy-wait until the counter reaches
the expected worker count. -/
def launch_program (num_workers num_multicast_messages : Nat)
    (cmd : Nat → Nat) : List DispatchAction :=
  if num_workers = 0 then []
  else
    DispatchAction.setMessageCounter 0 ::
    ((List.range num_multicast_messages).map (fun j =>
      DispatchAction.multicastLaunch
        (cmd (2 * j) * 2 ^ 32 + LAUNCH_MAILBOX_ADDR)
        (cmd (2 * j + 1)) launch_msg_static)) ++
    [DispatchAction.writeBarrier, DispatchAction.spinUntilCounter num_workers]

/-- Exit step of the busy-wait `while (*message_addr_ptr != num_workers);`:
given the successive values the completion counter takes, the index of the
first observation at which the loop falls through (`none` when the counter
never reaches the target — the documented unbounded block). -/
def spinWaitExit (target : Nat) : List Nat → Option Nat
  | [] => none
  | v :: rest =>
    if v = target then some 0
    else (spinWaitExit target rest).map (fun t => t + 1)

/-- Observable NoC actions of the buffer-write streaming loop. -/
inductive XferAction where
  | stageRead (src_addr size : Nat)
  | readBarrier
  | pageWrite (local_addr bank_id size : Nat)
  | writeBarrier
deriving DecidableEq, Repr

/-- The per-burst page loop of `write_buffer`
(`for (i = 0; i < read_size; i += padded_page_size)`): one `noc_async_write`
of `page_size` bytes per padded page, from successive staging offsets to
successive bank ids.  The loop variable cannot decrease, so a fuel bound
makes the recursion total; `none` models a non-terminating loop (padded page
size zero with a nonempty burst). -/
def innerPages (padded_page page_size : Nat) :
    Nat → Nat → Nat → Nat → Nat → Option (List XferAction × Nat)
  | 0, i, read_size, _, bank =>
    if i < read_size then none else some ([], bank)
  | fuel + 1, i, read_size, loc, bank =>
    if i < read_size then
      match innerPages padded_page page_size fuel (i + padded_page) read_size
          (loc + padded_page) (bank + 1) with
      | none => none
      | some (acts, bank') =>
        some (XferAction.pageWrite loc bank page_size :: acts, bank')
    else some ([], bank)

/-- The burst loop of `write_buffer` (lines 592-610): while padded bytes
remain, stage-read `min(burst_size, remaining)` bytes, barrier, emit the
per-page writes of that burst, barrier, and continue with the remainder; the
bank id persists across bursts.  Fuel-bounded with `none` as divergence
(burst size zero never shrinks the remainder). -/
def write_buffer_loop (burst_size page_size padded_page : Nat) :
    Nat → Nat → Nat → Nat → Option (List XferAction)
  | 0, _, remaining, _ =>
    if remaining = 0 then some [] else none
  | fuel + 1, src, remaining, bank =>
    if remaining = 0 then some []
    else
      let read_size := Nat.min burst_size remaining
      match innerPages padded_page page_size (read_size + 1) 0 read_size
          DEVICE_COMMAND_DATA_ADDR bank with
      | none => none
      | some (pages, bank') =>
        match write_buffer_loop burst_size page_size padded_page fuel
            (src + read_size) (remaining - read_size) bank' with
        | none => none
        | some rest =>
          some (XferAction.stageRead src read_size :: XferAction.readBarrier ::
                pages ++ XferAction.writeBarrier :: rest)

/-- The source of `write_buffer` (lines 576-611) as its NoC action trace,
fuel-bounded. -/
def write_buffer (src_addr padded_buf_size burst_size page_size
    padded_page fuel : Nat) : Option (List XferAction) :=
  write_buffer_loop burst_size page_size padded_page fuel src_addr
    padded_buf_size 0

/-- Modelled after the spec sentence: the successive staging-read sizes of a
streamed transfer, `min(burst, remaining)` per iteration until the remainder
is consumed; the reference list the trace of `write_buffer` is compared
against. -/
def burstSizes (burst : Nat) (remaining : Nat) : List Nat :=
  if h : remaining = 0 ∨ burst = 0 then []
  else
    Nat.min burst remaining ::
      burstSizes burst (remaining - Nat.min burst remaining)
termination_by remaining
decreasing_by
  push_neg at h
  have hb : 0 < Nat.min burst remaining :=
    lt_min (Nat.pos_of_ne_zero h.2) (Nat.pos_of_ne_zero h.1)
  omega

/-- The staging-read sizes occurring in a trace, in order. -/
def stageReadSizes (acts : List XferAction) : List Nat :=
  acts.filterMap (fun a =>
    match a with
    | XferAction.stageRead _ s => some s
    | _ => none)

/-- The number of per-page sub-transfers in a trace. -/
def numPageWrites (acts : List XferAction) : Nat :=
  (acts.filterMap (fun a =>
    match a with
    | XferAction.pageWrite _ _ _ => some ()
    | _ => none)).length

/-- C5: the claim says `add_index(i)` must fail fatally for every index
outside `0 .. NUM_CIRCULAR_BUFFERS - 1`, but the source guard (line 194) is
`index > NUM_CIRCULAR_BUFFERS`, so the out-of-range index
`NUM_CIRCULAR_BUFFERS` is accepted and the code then writes past the end of
the size-`NUM_CIRCULAR_BUFFERS` bitset: here the model returns `.ok` with the
out-of-range slot recorded instead of an error. -/
theorem C5_add_index_accepts_out_of_range_index :
    CircularBufferAllocator.init.add_index NUM_CIRCULAR_BUFFERS =
      .ok { indices := [NUM_CIRCULAR_BUFFERS],
            l1_regions := [(L1_UNRESERVED_BASE, L1_UNRESERVED_BASE)] } := by
  rfl

/-- A successful `compile` always leaves the compile-dirty flag clear. -/
theorem Program.compile_ok_flag_clear (p p1 : Program) (device : Device)
    (ctx : CompileContext) (n : Nat) (h : p.compile device ctx = .ok (p1, n)) :
    p1.compile_needed_ = false := by
  unfold Program.compile at h
  by_cases hf : p.compile_needed_ = false
  · rw [if_pos hf] at h
    have h1 : p = p1 := congrArg Prod.fst (Except.ok.inj h)
    rw [← h1]
    exact hf
  · rw [if_neg hf] at h
    by_cases hd : device.is_initialized = false
    · rw [if_pos hd] at h
      exact absurd h (by simp)
    · rw [if_neg hd] at h
      by_cases hp : (ctx.profiler_active && ctx.print_server_running) = true
      · rw [if_pos hp] at h
        exact absurd h (by simp)
      · rw [if_neg hp] at h
        cases hb : p.add_blank_kernels with
        | error e =>
          rw [hb] at h
          exact absurd h (by simp)
        | ok p2 =>
          rw [hb] at h
          have h1 : { p2 with compile_needed_ := false } = p1 :=
            congrArg Prod.fst (Except.ok.inj h)
          rw [← h1]

/-- C4: `compile(device)` performs no work and changes nothing when the
compile-dirty flag is clear (so a second compile without invalidation does
zero generation work), and with the flag set it fails fatally when the device
is uninitialized, or when the runtime profiler is active while the
debug-print server runs. -/
theorem C4_compile_noop_and_preconditions :
    (∀ (p : Program) (device : Device) (ctx : CompileContext),
        p.compile_needed_ = false → p.compile device ctx = .ok (p, 0)) ∧
    (∀ (p : Program) (device : Device) (ctx : CompileContext),
        p.compile_needed_ = true → device.is_initialized = false →
        ∃ e, p.compile device ctx = .error e) ∧
    (∀ (p : Program) (device : Device) (ctx : CompileContext),
        p.compile_needed_ = true → device.is_initialized = true →
        ctx.profiler_active = true → ctx.print_server_running = true →
        ∃ e, p.compile device ctx = .error e) ∧
    (∀ (p p1 : Program) (d d2 : Device) (ctx ctx2 : CompileContext) (n : Nat),
        p.compile d ctx = .ok (p1, n) → p1.compile d2 ctx2 = .ok (p1, 0)) := by
  refine ⟨?_, ?_, ?_, ?_⟩
  · intro p device ctx h
    simp [Program.compile, h]
  · intro p device ctx h hd
    refine ⟨"Device needs to be initialized before program compilation!", ?_⟩
    unfold Program.compile
    rw [if_neg (by simp [h]), if_pos hd]
  · intro p device ctx h hd hp hps
    refine ⟨"Debug print server is running, profiling is not allowed", ?_⟩
    unfold Program.compile
    rw [if_neg (by simp [h]), if_neg (by simp [hd]), if_pos (by simp [hp, hps])]
  · intro p p1 d d2 ctx ctx2 n h
    have hf := Program.compile_ok_flag_clear p p1 d ctx n h
    simp [Program.compile, hf]

/-- Witness for C4 at concrete inputs: an empty program with a clear flag
compiles as a no-op; with the flag set, an uninitialized device and a
profiler/print-server conflict are fatal; and a second compile after a
successful one does zero generation work. -/
theorem C4_witness :
    Program.compile ⟨[], [], [], false, false⟩ ⟨true⟩ ⟨false, false⟩ =
      .ok (⟨[], [], [], false, false⟩, 0) ∧
    (∃ e, Program.compile ⟨[], [], [], true, false⟩ ⟨false⟩ ⟨false, false⟩ =
      .error e) ∧
    (∃ e, Program.compile ⟨[], [], [], true, false⟩ ⟨true⟩ ⟨true, true⟩ =
      .error e) ∧
    Program.compile ⟨[], [], [], false, false⟩ ⟨true⟩ ⟨true, false⟩ =
      .ok (⟨[], [], [], false, false⟩, 0) :=
  ⟨C4_compile_noop_and_preconditions.1 _ _ _ rfl,
   C4_compile_noop_and_preconditions.2.1 _ _ _ rfl rfl,
   C4_compile_noop_and_preconditions.2.2.1 _ _ _ rfl rfl rfl rfl,
   C4_compile_noop_and_preconditions.2.2.2
     ⟨[], [], [], true, false⟩ _ ⟨true⟩ ⟨true⟩ ⟨false, false⟩ ⟨true, false⟩ 0
     (by rfl)⟩

/-- The busy-wait exit index points at the first observation equal to the
target: the counter value there is the target and no earlier observation
reached it. -/
theorem spinWaitExit_first (target : Nat) :
    ∀ (obs : List Nat) (t : Nat), spinWaitExit target obs = some t →
      obs[t]? = some target ∧ ∀ s, s < t → obs[s]? ≠ some target := by
  intro obs
  induction obs with
  | nil => intro t h; simp [spinWaitExit] at h
  | cons v rest ih =>
    intro t h
    by_cases hv : v = target
    · simp [spinWaitExit, hv] at h
      subst h
      exact ⟨by simp [hv], by intro s hs; omega⟩
    · simp [spinWaitExit, hv] at h
      obtain ⟨t', ht', rfl⟩ := h
      obtain ⟨h1, h2⟩ := ih t' ht'
      refine ⟨by simpa using h1, ?_⟩
      intro s hs
      cases s with
      | zero => simpa using hv
      | succ s' => simpa using h2 s' (by omega)

/-- The last element of a trace of the shape `l ++ [b, s]` is `s`. -/
theorem getLast?_append_pair {α : Type} (b s : α) (l : List α) :
    (l ++ [b, s]).getLast? = some s := by
  have h : l ++ [b, s] = (l ++ [b]) ++ [s] := by simp
  rw [h, List.getLast?_concat]

/-- C7: for a launch record with a nonzero expected worker count the
dispatcher first resets the completion counter to zero, then multicasts the
fixed launch descriptor (all roles enabled, go sentinel) to each destination
group's mailbox address with that group's receiver count, and the busy-wait
exits only at the first moment the completion counter equals the expected
worker count. -/
theorem C7_launch_trace_and_busy_wait
    (num_workers num_mc : Nat) (cmd : Nat → Nat) (hw : num_workers ≠ 0) :
    (launch_program num_workers num_mc cmd).head? =
      some (DispatchAction.setMessageCounter 0) ∧
    (∀ j, j < num_mc →
      (launch_program num_workers num_mc cmd)[j + 1]? =
        some (DispatchAction.multicastLaunch
          (cmd (2 * j) * 2 ^ 32 + LAUNCH_MAILBOX_ADDR) (cmd (2 * j + 1))
          launch_msg_static)) ∧
    (launch_program num_workers num_mc cmd).getLast? =
      some (DispatchAction.spinUntilCounter num_workers) ∧
    (∀ obs t, spinWaitExit num_workers obs = some t →
      obs[t]? = some num_workers ∧
      ∀ s, s < t → obs[s]? ≠ some num_workers) := by
  unfold launch_program
  rw [if_neg hw]
  refine ⟨rfl, ?_, ?_, fun obs t h => spinWaitExit_first num_workers obs t h⟩
  · intro j hj
    have hlen : j < ((List.range num_mc).map (fun j =>
        DispatchAction.multicastLaunch
          (cmd (2 * j) * 2 ^ 32 + LAUNCH_MAILBOX_ADDR) (cmd (2 * j + 1))
          launch_msg_static)).length := by
      simpa using hj
    rw [List.cons_append, List.getElem?_cons_succ, List.getElem?_append,
        if_pos hlen, List.getElem?_map]
    simp [List.getElem?_range hj]
  · exact getLast?_append_pair _ _ _

/-- Witness for C7 on the spec's scenario: two multicast groups with receiver
counts 3 and 5, expected worker count 8; the counter observation sequence
`[0, 3, 8]` exits the busy-wait only at the final value 8. -/
theorem C7_witness :
    (launch_program 8 2 (fun i => [10, 3, 20, 5].getD i 0)).head? =
      some (DispatchAction.setMessageCounter 0) ∧
    (launch_program 8 2 (fun i => [10, 3, 20, 5].getD i 0))[1]? =
      some (DispatchAction.multicastLaunch (10 * 2 ^ 32 + LAUNCH_MAILBOX_ADDR)
        3 launch_msg_static) ∧
    (launch_program 8 2 (fun i => [10, 3, 20, 5].getD i 0))[2]? =
      some (DispatchAction.multicastLaunch (20 * 2 ^ 32 + LAUNCH_MAILBOX_ADDR)
        5 launch_msg_static) ∧
    (launch_program 8 2 (fun i => [10, 3, 20, 5].getD i 0)).getLast? =
      some (DispatchAction.spinUntilCounter 8) ∧
    [0, 3, 8][2]? = some 8 ∧ [0, 3, 8][0]? ≠ some 8 :=
  have h := C7_launch_trace_and_busy_wait 8 2
    (fun i => [10, 3, 20, 5].getD i 0) (by decide)
  ⟨h.1, h.2.1 0 (by decide), h.2.1 1 (by decide), h.2.2.1,
   (h.2.2.2 [0, 3, 8] 2 (by decide)).1,
   (h.2.2.2 [0, 3, 8] 2 (by decide)).2 0 (by decide)⟩

/-- The role entry the derived group map stores for a core. -/
def groupsRole (gs : KernelGroupMap) (c : CoreCoord) (pr : RISCV) : Option Nat :=
  (alookup gs c).bind (fun g => g.role pr)

/-- The id of the last kernel in list order with the given role covering the
given core, if any; the reference value the derived group map is compared
against (later kernels overwrite earlier ones of the same role). -/
def lastRoleKernel : List Kernel → CoreCoord → RISCV → Option Nat
  | [], _, _ => none
  | k :: rest, c, pr =>
    match lastRoleKernel rest c pr with
    | some i => some i
    | none =>
      if k.processor = pr ∧ c ∈ k.logical_cores then some k.id else none

theorem alookup_append {α β : Type} [DecidableEq α] (m l : List (α × β))
    (a : α) :
    alookup (m ++ l) a =
      (match alookup m a with
       | some b => some b
       | none => alookup l a) := by
  induction m with
  | nil => simp [alookup]
  | cons e rest ih =>
    by_cases h : a = e.1
    · simp [alookup, h]
    · simp [alookup, h, ih]

theorem alookup_aupdate_ne {α β : Type} [DecidableEq α] (m : List (α × β))
    (a a' : α) (b : β) (h : a' ≠ a) :
    alookup (aupdate m a b) a' = alookup m a' := by
  induction m with
  | nil => rfl
  | cons e rest ih =>
    by_cases he : a = e.1
    · have : a' ≠ e.1 := he ▸ h
      simp [aupdate, he, alookup, this]
    · by_cases he' : a' = e.1
      · simp [aupdate, he, alookup, he']
      · simp [aupdate, he, alookup, he', ih]

theorem alookup_aupdate_self {α β : Type} [DecidableEq α] (m : List (α × β))
    (a : α) (b b0 : β) (h : alookup m a = some b0) :
    alookup (aupdate m a b) a = some b := by
  induction m with
  | nil => simp [alookup] at h
  | cons e rest ih =>
    by_cases he : a = e.1
    · simp [aupdate, he, alookup]
    · simp [alookup, he] at h
      simp [aupdate, he, alookup, ih h]

theorem alookup_aupsert_self {α β : Type} [DecidableEq α] (m : List (α × β))
    (a : α) (b : β) :
    alookup (aupsert m a b) a = some b := by
  unfold aupsert
  cases h : alookup m a with
  | some b0 => exact alookup_aupdate_self m a b b0 h
  | none => simp [alookup_append, h, alookup]

theorem alookup_aupsert_ne {α β : Type} [DecidableEq α] (m : List (α × β))
    (a a' : α) (b : β) (h : a' ≠ a) :
    alookup (aupsert m a b) a' = alookup m a' := by
  unfold aupsert
  cases hm : alookup m a with
  | some b0 => exact alookup_aupdate_ne m a a' b h
  | none =>
    rw [alookup_append]
    cases hm' : alookup m a' with
    | some b1 => rfl
    | none => simp [alookup, h]

theorem mem_of_alookup {α β : Type} [DecidableEq α] (m : List (α × β))
    (a : α) (b : β) (h : alookup m a = some b) : (a, b) ∈ m := by
  induction m with
  | nil => simp [alookup] at h
  | cons e rest ih =>
    by_cases he : a = e.1
    · simp [alookup, he] at h
      have heq : (a, b) = e := by
        rw [he, ← h]
      rw [heq]
      exact List.mem_cons_self e rest
    · simp [alookup, he] at h
      exact List.mem_cons_of_mem e (ih h)

/-- The freshly constructed group has no role assigned. -/
theorem KernelGroup.init_role (pr : RISCV) : KernelGroup.init.role pr = none := by
  cases pr <;> rfl

/-- A supported-role `update` succeeds, stores the kernel's id under its role
and leaves every other role untouched. -/
theorem KernelGroup.update_role_self (g : KernelGroup) (k : Kernel)
    (hpr : k.processor ≠ RISCV.TRISC) :
    ∃ g2, g.update k = .ok g2 ∧ g2.role k.processor = some k.id ∧
      (∀ pr, pr ≠ k.processor → g2.role pr = g.role pr) := by
  cases hk : k.processor with
  | BRISC =>
    refine ⟨{ g with riscv0_id := some k.id, enable_brisc := true },
      by simp [KernelGroup.update, hk], by simp [hk, KernelGroup.role], ?_⟩
    intro pr hne
    cases pr <;> simp_all [KernelGroup.role]
  | NCRISC =>
    refine ⟨{ g with riscv1_id := some k.id, enable_ncrisc := true },
      by simp [KernelGroup.update, hk], by simp [hk, KernelGroup.role], ?_⟩
    intro pr hne
    cases pr <;> simp_all [KernelGroup.role]
  | COMPUTE =>
    refine ⟨{ g with compute_id := some k.id, enable_triscs := true },
      by simp [KernelGroup.update, hk], by simp [hk, KernelGroup.role], ?_⟩
    intro pr hne
    cases pr <;> simp_all [KernelGroup.role]
  | TRISC => exact absurd hk hpr

/-- An unsupported-processor `update` hits the fatal `default:` branch. -/
theorem KernelGroup.update_trisc (g : KernelGroup) (k : Kernel)
    (hpr : k.processor = RISCV.TRISC) :
    g.update k = .error "Unsupported kernel processor!" := by
  simp [KernelGroup.update, hpr]

/-- Updating the groups of a supported-role kernel over a core list succeeds,
sets the kernel's role to its id on exactly the listed cores, changes no other
role anywhere, and adds exactly the listed cores to the map's domain. -/
theorem updateGroupsForCores_ok (k : Kernel) (hpr : k.processor ≠ RISCV.TRISC) :
    ∀ (cores : List CoreCoord) (gs : KernelGroupMap),
      ∃ gs', updateGroupsForCores k gs cores = .ok gs' ∧
        (∀ c pr, pr ≠ k.processor → groupsRole gs' c pr = groupsRole gs c pr) ∧
        (∀ c, c ∈ cores → groupsRole gs' c k.processor = some k.id) ∧
        (∀ c, c ∉ cores →
          groupsRole gs' c k.processor = groupsRole gs c k.processor) ∧
        (∀ c, (alookup gs' c).isSome = true ↔
          ((alookup gs c).isSome = true ∨ c ∈ cores)) := by
  intro cores
  induction cores with
  | nil =>
    intro gs
    exact ⟨gs, rfl, fun c pr _ => rfl, by simp, fun c _ => rfl, by simp⟩
  | cons c0 rest ih =>
    intro gs
    obtain ⟨g2, hup, hself, hother⟩ :=
      KernelGroup.update_role_self ((alookup gs c0).getD KernelGroup.init) k hpr
    obtain ⟨gs', hrec, ho, hin, hout, hpres⟩ := ih (aupsert gs c0 g2)
    have hrole_pres : ∀ pr, pr ≠ k.processor →
        groupsRole (aupsert gs c0 g2) c0 pr = groupsRole gs c0 pr := by
      intro pr hne
      have h2 := hother pr hne
      cases hg : alookup gs c0 with
      | some g0 =>
        rw [hg] at h2
        simp [groupsRole, alookup_aupsert_self, hg, h2]
      | none =>
        rw [hg] at h2
        simp [groupsRole, alookup_aupsert_self, hg, h2, KernelGroup.init_role]
    refine ⟨gs', ?_, ?_, ?_, ?_, ?_⟩
    · simp only [updateGroupsForCores]
      rw [hup]
      exact hrec
    · intro c pr hne
      rw [ho c pr hne]
      by_cases hc : c = c0
      · rw [hc]
        exact hrole_pres pr hne
      · rw [groupsRole, alookup_aupsert_ne gs c0 c g2 hc, ← groupsRole]
    · intro c hc
      by_cases hcr : c ∈ rest
      · exact hin c hcr
      · have hc0 : c = c0 := by
          rcases List.mem_cons.mp hc with h | h
          · exact h
          · exact absurd h hcr
        rw [hout c hcr, hc0, groupsRole, alookup_aupsert_self]
        exact hself
    · intro c hc
      have hc0 : c ≠ c0 := fun h => hc (h ▸ List.mem_cons_self c0 rest)
      have hcr : c ∉ rest := fun h => hc (List.mem_cons_of_mem c0 h)
      rw [hout c hcr, groupsRole, alookup_aupsert_ne gs c0 c g2 hc0, ← groupsRole]
    · intro c
      rw [hpres c]
      by_cases hc : c = c0
      · subst hc
        simp [alookup_aupsert_self]
      · rw [alookup_aupsert_ne gs c0 c g2 hc]
        simp [List.mem_cons, hc]

/-- Updating the groups of an unsupported-processor kernel over a nonempty
core list is fatal. -/
theorem updateGroupsForCores_trisc_err (k : Kernel)
    (hpr : k.processor = RISCV.TRISC) (gs : KernelGroupMap) (c0 : CoreCoord)
    (rest : List CoreCoord) :
    updateGroupsForCores k gs (c0 :: rest) =
      .error "Unsupported kernel processor!" := by
  simp only [updateGroupsForCores]
  rw [KernelGroup.update_trisc _ k hpr]

/-- Characterization of a successfully computed group map over an initial
accumulator: each role entry is the last covering kernel of that role (or
whatever the accumulator already held), and the domain grows by exactly the
covered cores. -/
theorem coreToKernelGroupList_spec :
    ∀ (ks : List Kernel) (gs gs' : KernelGroupMap),
      coreToKernelGroupList ks gs = .ok gs' →
      (∀ c pr, groupsRole gs' c pr =
        (match lastRoleKernel ks c pr with
         | some i => some i
         | none => groupsRole gs c pr)) ∧
      (∀ c, (alookup gs' c).isSome = true ↔
        ((alookup gs c).isSome = true ∨ ∃ k, k ∈ ks ∧ c ∈ k.logical_cores)) := by
  intro ks
  induction ks with
  | nil =>
    intro gs gs' h
    have hgs : gs = gs' := Except.ok.inj h
    subst hgs
    exact ⟨fun c pr => rfl, by simp⟩
  | cons k rest ih =>
    intro gs gs' h
    cases hstep : updateGroupsForCores k gs k.logical_cores with
    | error e =>
      rw [coreToKernelGroupList, hstep] at h
      exact absurd h (by simp)
    | ok gs1 =>
      rw [coreToKernelGroupList, hstep] at h
      obtain ⟨ha, hb⟩ := ih gs1 gs' h
      by_cases hpr : k.processor = RISCV.TRISC
      · cases hc : k.logical_cores with
        | cons c0 cr =>
          rw [hc, updateGroupsForCores_trisc_err k hpr gs c0 cr] at hstep
          exact absurd hstep (by simp)
        | nil =>
          rw [hc] at hstep
          have hgs1 : gs = gs1 := Except.ok.inj hstep
          subst hgs1
          refine ⟨?_, ?_⟩
          · intro c pr
            rw [ha c pr]
            have hfalse : ¬(k.processor = pr ∧ c ∈ k.logical_cores) := by
              rw [hc]
              simp
            simp only [lastRoleKernel, if_neg hfalse]
            cases lastRoleKernel rest c pr <;> rfl
          · intro c
            rw [hb c]
            constructor
            · rintro (h1 | ⟨k', hk', hc'⟩)
              · exact Or.inl h1
              · exact Or.inr ⟨k', List.mem_cons_of_mem k hk', hc'⟩
            · rintro (h1 | ⟨k', hk', hc'⟩)
              · exact Or.inl h1
              · rcases List.mem_cons.mp hk' with h' | h'
                · subst h'
                  rw [hc] at hc'
                  exact absurd hc' (List.not_mem_nil c)
                · exact Or.inr ⟨k', h', hc'⟩
      · obtain ⟨gs1', hstep', ho, hin, hout, hpres⟩ :=
          updateGroupsForCores_ok k hpr k.logical_cores gs
        have hgs1 : gs1 = gs1' := by
          rw [hstep] at hstep'
          exact Except.ok.inj hstep'
        subst hgs1
        refine ⟨?_, ?_⟩
        · intro c pr
          rw [ha c pr]
          cases hl : lastRoleKernel rest c pr with
          | some i => simp only [lastRoleKernel, hl]
          | none =>
            simp only [lastRoleKernel, hl]
            by_cases hpp : k.processor = pr
            · subst hpp
              by_cases hcin : c ∈ k.logical_cores
              · rw [hin c hcin, if_pos ⟨rfl, hcin⟩]
              · rw [hout c hcin, if_neg (fun hand => hcin hand.2)]
            · rw [ho c pr (fun hfun => hpp hfun.symm),
                if_neg (fun hand => hpp hand.1)]
        · intro c
          rw [hb c, hpres c]
          constructor
          · rintro ((h1 | h2) | ⟨k', hk', hc'⟩)
            · exact Or.inl h1
            · exact Or.inr ⟨k, List.mem_cons_self k rest, h2⟩
            · exact Or.inr ⟨k', List.mem_cons_of_mem k hk', hc'⟩
          · rintro (h1 | ⟨k', hk', hc'⟩)
            · exact Or.inl (Or.inl h1)
            · rcases List.mem_cons.mp hk' with h | h
              · exact Or.inl (Or.inr (h ▸ hc'))
              · exact Or.inr ⟨k', h, hc'⟩

/-- An unsupported-processor kernel covering at least one core makes the
whole group-map computation fatal. -/
theorem coreToKernelGroupList_err (k : Kernel)
    (hpr : k.processor = RISCV.TRISC) (hc : k.logical_cores ≠ []) :
    ∀ (ks : List Kernel) (gs : KernelGroupMap), k ∈ ks →
      ∃ e, coreToKernelGroupList ks gs = .error e := by
  intro ks
  induction ks with
  | nil =>
    intro gs h
    exact absurd h (List.not_mem_nil k)
  | cons k0 rest ih =>
    intro gs hmem
    by_cases hk : k0 = k
    · subst hk
      cases hcc : k0.logical_cores with
      | nil => exact absurd hcc hc
      | cons c0 cr =>
        refine ⟨"Unsupported kernel processor!", ?_⟩
        rw [coreToKernelGroupList, hcc,
          updateGroupsForCores_trisc_err k0 hpr gs c0 cr]
    · have hkr : k ∈ rest := by
        rcases List.mem_cons.mp hmem with h | h
        · exact absurd h.symm hk
        · exact h
      cases hstep : updateGroupsForCores k0 gs k0.logical_cores with
      | error e =>
        refine ⟨e, ?_⟩
        rw [coreToKernelGroupList, hstep]
      | ok gs1 =>
        obtain ⟨e, he⟩ := ih gs1 hkr
        refine ⟨e, ?_⟩
        rw [coreToKernelGroupList, hstep]
        exact he

/-- A role is recorded for a core exactly when some kernel of that role
covers the core. -/
theorem lastRoleKernel_isSome :
    ∀ (ks : List Kernel) (c : CoreCoord) (pr : RISCV),
      (lastRoleKernel ks c pr).isSome = true ↔
        ∃ k, k ∈ ks ∧ k.processor = pr ∧ c ∈ k.logical_cores := by
  intro ks
  induction ks with
  | nil => intro c pr; simp [lastRoleKernel]
  | cons k rest ih =>
    intro c pr
    simp only [lastRoleKernel]
    cases hl : lastRoleKernel rest c pr with
    | some i =>
      simp only [Option.isSome_some, true_iff]
      obtain ⟨k', hk', hp', hc'⟩ := (ih c pr).mp (by rw [hl]; rfl)
      exact ⟨k', List.mem_cons_of_mem k hk', hp', hc'⟩
    | none =>
      by_cases hcond : k.processor = pr ∧ c ∈ k.logical_cores
      · simp only [if_pos hcond, Option.isSome_some, true_iff]
        exact ⟨k, List.mem_cons_self k rest, hcond.1, hcond.2⟩
      · simp only [if_neg hcond, Option.isSome_none]
        constructor
        · intro hfalse
          exact absurd hfalse (by simp)
        · rintro ⟨k', hk', hp', hc'⟩
          rcases List.mem_cons.mp hk' with h | h
          · exact absurd ⟨h ▸ hp', h ▸ hc'⟩ hcond
          · have := (ih c pr).mpr ⟨k', h, hp', hc'⟩
            rw [hl] at this
            exact absurd this (by simp)

/-- C6 counterexample: two BRISC kernels registered on the same core — the
claim says the second same-role assignment must fail fatally, but
`KernelGroup::update` has no duplicate check, so `core_to_kernel_group`
succeeds and the second kernel's id silently overwrites the first. -/
theorem C6_counterexample_duplicate_role_succeeds :
    (Program.mk
      [Kernel.mk 0 RISCV.BRISC [CoreRange.mk (CoreCoord.mk 0 0) (CoreCoord.mk 0 0)],
       Kernel.mk 1 RISCV.BRISC [CoreRange.mk (CoreCoord.mk 0 0) (CoreCoord.mk 0 0)]]
      [] [] false false).core_to_kernel_group =
      .ok [(CoreCoord.mk 0 0,
        { riscv0_id := some 1, riscv1_id := none, compute_id := none,
          enable_brisc := true, enable_ncrisc := false, enable_triscs := false,
          run := RUN_MSG_GO })] := by
  rfl

/-- C6 (amended): in `core_to_kernel_group` an unsupported processor role on
any covered core is fatal, but a second kernel with the same supported role on
the same core does not fail — each role entry ends up holding the id of the
last registered kernel of that role covering the core (later assignments
overwrite earlier ones). -/
theorem C6_role_last_wins_and_unsupported_fatal :
    (∀ (p : Program) (k : Kernel), k ∈ p.kernels → k.processor = RISCV.TRISC →
        k.logical_cores ≠ [] → ∃ e, p.core_to_kernel_group = .error e) ∧
    (∀ (p : Program) (gs : KernelGroupMap),
        p.core_to_kernel_group = .ok gs →
        ∀ c pr, groupsRole gs c pr = lastRoleKernel p.kernels c pr) := by
  constructor
  · intro p k hm hpr hc
    exact coreToKernelGroupList_err k hpr hc p.kernels [] hm
  · intro p gs h c pr
    have hspec := (coreToKernelGroupList_spec p.kernels [] gs h).1 c pr
    rw [hspec]
    cases lastRoleKernel p.kernels c pr <;> rfl

/-- Witness for C6 (amended) at concrete inputs: a TRISC kernel covering a
core makes the computation fatal, and on the duplicate-BRISC program the
stored role id is the last kernel's id. -/
theorem C6_witness :
    (∃ e, (Program.mk
        [Kernel.mk 0 RISCV.TRISC [CoreRange.mk (CoreCoord.mk 0 0) (CoreCoord.mk 0 0)]]
        [] [] false false).core_to_kernel_group = .error e) ∧
    groupsRole
      [(CoreCoord.mk 0 0,
        { riscv0_id := some 1, riscv1_id := none, compute_id := none,
          enable_brisc := true, enable_ncrisc := false, enable_triscs := false,
          run := RUN_MSG_GO })]
      (CoreCoord.mk 0 0) RISCV.BRISC =
      lastRoleKernel
        [Kernel.mk 0 RISCV.BRISC [CoreRange.mk (CoreCoord.mk 0 0) (CoreCoord.mk 0 0)],
         Kernel.mk 1 RISCV.BRISC [CoreRange.mk (CoreCoord.mk 0 0) (CoreCoord.mk 0 0)]]
        (CoreCoord.mk 0 0) RISCV.BRISC :=
  ⟨C6_role_last_wins_and_unsupported_fatal.1 _
      (Kernel.mk 0 RISCV.TRISC [CoreRange.mk (CoreCoord.mk 0 0) (CoreCoord.mk 0 0)])
      (List.mem_cons_self _ _) rfl (by decide),
   C6_role_last_wins_and_unsupported_fatal.2
     (Program.mk
       [Kernel.mk 0 RISCV.BRISC [CoreRange.mk (CoreCoord.mk 0 0) (CoreCoord.mk 0 0)],
        Kernel.mk 1 RISCV.BRISC [CoreRange.mk (CoreCoord.mk 0 0) (CoreCoord.mk 0 0)]]
       [] [] false false)
     [(CoreCoord.mk 0 0,
       { riscv0_id := some 1, riscv1_id := none, compute_id := none,
         enable_brisc := true, enable_ncrisc := false, enable_triscs := false,
         run := RUN_MSG_GO })]
     (by rfl) (CoreCoord.mk 0 0) RISCV.BRISC⟩

/-- C10: `kernels_on_core` returns a null pointer (no error) exactly when no
registered kernel of the program covers the queried core. -/
theorem C10_kernels_on_core_null_iff_uncovered (p : Program) (c : CoreCoord)
    (gs : KernelGroupMap) (h : p.core_to_kernel_group = .ok gs) :
    p.kernels_on_core c = .ok none ↔ ∀ k ∈ p.kernels, c ∉ k.logical_cores := by
  have hpres := (coreToKernelGroupList_spec p.kernels [] gs h).2 c
  have hru : p.kernels_on_core c = .ok (alookup gs c) := by
    unfold Program.kernels_on_core
    rw [h]
  rw [hru]
  constructor
  · intro hnone k hk hc
    have h1 : alookup gs c = none := Except.ok.inj hnone
    have h2 : (alookup gs c).isSome = true :=
      hpres.mpr (Or.inr ⟨k, hk, hc⟩)
    rw [h1] at h2
    exact absurd h2 (by simp)
  · intro hall
    cases hg : alookup gs c with
    | none => rfl
    | some g =>
      have h2 : (alookup gs c).isSome = true := by rw [hg]; rfl
      rcases hpres.mp h2 with h1 | ⟨k, hk, hc⟩
      · simp [alookup] at h1
      · exact absurd hc (hall k hk)

/-- Witness for C10 at a concrete program: a single kernel on core (0,0); the
query at uncovered core (5,5) yields the null group, the covered core making
the right-hand side false. -/
theorem C10_witness :
    (Program.mk
        [Kernel.mk 0 RISCV.BRISC [CoreRange.mk (CoreCoord.mk 0 0) (CoreCoord.mk 0 0)]]
        [] [] false false).kernels_on_core (CoreCoord.mk 5 5) = .ok none ↔
      ∀ k ∈ (Program.mk
        [Kernel.mk 0 RISCV.BRISC [CoreRange.mk (CoreCoord.mk 0 0) (CoreCoord.mk 0 0)]]
        [] [] false false).kernels, CoreCoord.mk 5 5 ∉ k.logical_cores :=
  C10_kernels_on_core_null_iff_uncovered _ _ _ rfl

/-- A single-core range covers exactly its core. -/
theorem CoreRange.cores_single (c : CoreCoord) :
    (CoreRange.mk c c).cores = [c] := by
  cases c with
  | mk x y =>
    simp [CoreRange.cores, rangeIncl, Nat.add_sub_cancel_left, List.range_succ]

/-- A coordinate bound in an association list has a present lookup. -/
theorem alookup_isSome_of_mem {α β : Type} [DecidableEq α]
    (m : List (α × β)) (e : α × β) (h : e ∈ m) :
    (alookup m e.1).isSome = true := by
  induction m with
  | nil => exact absurd h (List.not_mem_nil e)
  | cons e0 rest ih =>
    by_cases he : e.1 = e0.1
    · simp [alookup, he]
    · rcases List.mem_cons.mp h with h1 | h1
      · exact absurd (congrArg Prod.fst h1) he
      · simp [alookup, he, ih h1]

/-- Membership in the cores of a list of single-core ranges built from map
entries, in both directions. -/
theorem mem_coresOfRanges_singles {γ : Type} (lst : List (CoreCoord × γ))
    (c : CoreCoord) :
    c ∈ coresOfRanges (lst.map (fun e => CoreRange.mk e.1 e.1)) ↔
      ∃ e, e ∈ lst ∧ c = e.1 := by
  induction lst with
  | nil => simp [coresOfRanges]
  | cons e0 rest ih =>
    simp only [List.map_cons, coresOfRanges, CoreRange.cores_single,
      List.mem_append, List.mem_singleton, ih]
    constructor
    · rintro (h | ⟨e, he, hc⟩)
      · exact ⟨e0, List.mem_cons_self e0 rest, h⟩
      · exact ⟨e, List.mem_cons_of_mem e0 he, hc⟩
    · rintro ⟨e, he, hc⟩
      rcases List.mem_cons.mp he with h1 | h1
      · exact Or.inl (h1 ▸ hc)
      · exact Or.inr ⟨e, h1, hc⟩

/-- When a mapped core's group leaves a (supported) role empty, the blank
kernel registered for that role exists and covers that core. -/
theorem blankKernelsFor_covers (ks : List Kernel) (gs : KernelGroupMap)
    (c : CoreCoord) (g0 : KernelGroup) (hg0 : alookup gs c = some g0)
    (pr : RISCV)
    (hpr3 : pr = RISCV.BRISC ∨ pr = RISCV.NCRISC ∨ pr = RISCV.COMPUTE)
    (hrole : g0.role pr = none) :
    ∃ bk, bk ∈ blankKernelsFor ks gs ∧ bk.processor = pr ∧
      c ∈ bk.logical_cores := by
  have hmemf : (c, g0) ∈ gs.filter (fun e => e.2.role pr = none) :=
    List.mem_filter.mpr ⟨mem_of_alookup gs c g0 hg0, by simp [hrole]⟩
  have hmem : CoreRange.mk c c ∈ missingRanges gs pr := by
    unfold missingRanges
    exact List.mem_map.mpr ⟨(c, g0), hmemf, rfl⟩
  have hne : missingRanges gs pr ≠ [] := by
    intro h0
    rw [h0] at hmem
    exact absurd hmem (List.not_mem_nil _)
  have hcores : c ∈ coresOfRanges (missingRanges gs pr) := by
    unfold missingRanges
    exact (mem_coresOfRanges_singles _ c).mpr ⟨(c, g0), hmemf, rfl⟩
  rcases hpr3 with h | h | h <;> subst h
  · refine ⟨Kernel.mk (freshKernelId ks) RISCV.BRISC
      (missingRanges gs RISCV.BRISC), ?_, rfl, hcores⟩
    simp only [blankKernelsFor]
    exact List.mem_append_left _ (List.mem_append_left _
      (by rw [if_neg hne]; exact List.mem_singleton.mpr rfl))
  · refine ⟨Kernel.mk (freshKernelId ks + 1) RISCV.NCRISC
      (missingRanges gs RISCV.NCRISC), ?_, rfl, hcores⟩
    simp only [blankKernelsFor]
    exact List.mem_append_left _ (List.mem_append_right _
      (by rw [if_neg hne]; exact List.mem_singleton.mpr rfl))
  · refine ⟨Kernel.mk (freshKernelId ks + 2) RISCV.COMPUTE
      (missingRanges gs RISCV.COMPUTE), ?_, rfl, hcores⟩
    simp only [blankKernelsFor]
    exact List.mem_append_right _
      (by rw [if_neg hne]; exact List.mem_singleton.mpr rfl)

/-- Every blank kernel's cores come from the group map's domain. -/
theorem blankKernelsFor_cores_sub (ks : List Kernel) (gs : KernelGroupMap)
    (bk : Kernel) (hbk : bk ∈ blankKernelsFor ks gs) (c : CoreCoord)
    (hc : c ∈ bk.logical_cores) : (alookup gs c).isSome = true := by
  have hranges : bk.core_ranges = missingRanges gs RISCV.BRISC ∨
      bk.core_ranges = missingRanges gs RISCV.NCRISC ∨
      bk.core_ranges = missingRanges gs RISCV.COMPUTE := by
    unfold blankKernelsFor at hbk
    rcases List.mem_append.mp hbk with h | h
    · rcases List.mem_append.mp h with h1 | h1
      · by_cases hB : missingRanges gs RISCV.BRISC = []
        · rw [if_pos hB] at h1
          exact absurd h1 (List.not_mem_nil bk)
        · rw [if_neg hB] at h1
          rcases List.mem_singleton.mp h1 with h2
          exact Or.inl (by rw [h2])
      · by_cases hN : missingRanges gs RISCV.NCRISC = []
        · rw [if_pos hN] at h1
          exact absurd h1 (List.not_mem_nil bk)
        · rw [if_neg hN] at h1
          rcases List.mem_singleton.mp h1 with h2
          exact Or.inr (Or.inl (by rw [h2]))
    · by_cases hC : missingRanges gs RISCV.COMPUTE = []
      · rw [if_pos hC] at h
        exact absurd h (List.not_mem_nil bk)
      · rw [if_neg hC] at h
        rcases List.mem_singleton.mp h with h2
        exact Or.inr (Or.inr (by rw [h2]))
  have hdom : ∀ pr, c ∈ coresOfRanges (missingRanges gs pr) →
      (alookup gs c).isSome = true := by
    intro pr hcc
    unfold missingRanges at hcc
    obtain ⟨e, he, hce⟩ := (mem_coresOfRanges_singles _ c).mp hcc
    have := alookup_isSome_of_mem gs e (List.mem_of_mem_filter he)
    rw [hce]
    exact this
  rw [Kernel.logical_cores] at hc
  rcases hranges with h | h | h <;> rw [h] at hc
  · exact hdom RISCV.BRISC hc
  · exact hdom RISCV.NCRISC hc
  · exact hdom RISCV.COMPUTE hc

/-- C3: after the blank-kernel insertion step of `compile`, every core that
hosts at least one kernel has all three processor roles assigned in its
kernel group — no role is left empty on any active core. -/
theorem C3_blank_kernels_fill_all_roles (p p' : Program) (gs' : KernelGroupMap)
    (h1 : p.add_blank_kernels = .ok p')
    (h2 : p'.core_to_kernel_group = .ok gs') :
    ∀ c g, alookup gs' c = some g →
      g.riscv0_id.isSome = true ∧ g.riscv1_id.isSome = true ∧
      g.compute_id.isSome = true := by
  intro c g hcg
  unfold Program.add_blank_kernels at h1
  cases hg : p.core_to_kernel_group with
  | error e =>
    rw [hg] at h1
    exact absurd h1 (by simp)
  | ok gs =>
    rw [hg] at h1
    have hp' : ({ p with
        kernels := p.kernels ++ blankKernelsFor p.kernels gs,
        compile_needed_ :=
          if blankKernelsFor p.kernels gs = [] then p.compile_needed_
          else true } : Program) = p' := Except.ok.inj h1
    have hker : p'.kernels = p.kernels ++ blankKernelsFor p.kernels gs := by
      rw [← hp']
    have hspec := coreToKernelGroupList_spec p'.kernels [] gs' h2
    have hsome' : (alookup gs' c).isSome = true := by rw [hcg]; rfl
    have hcov : ∃ k, k ∈ p'.kernels ∧ c ∈ k.logical_cores := by
      rcases (hspec.2 c).mp hsome' with hfalse | h
      · simp [alookup] at hfalse
      · exact h
    have hdom : (alookup gs c).isSome = true := by
      obtain ⟨k, hk, hkc⟩ := hcov
      rw [hker] at hk
      rcases List.mem_append.mp hk with hk1 | hk1
      · exact ((coreToKernelGroupList_spec p.kernels [] gs hg).2 c).mpr
          (Or.inr ⟨k, hk1, hkc⟩)
      · exact blankKernelsFor_cores_sub p.kernels gs k hk1 c hkc
    obtain ⟨g0, hg0⟩ := Option.isSome_iff_exists.mp hdom
    have hrole : ∀ pr,
        (pr = RISCV.BRISC ∨ pr = RISCV.NCRISC ∨ pr = RISCV.COMPUTE) →
        (g.role pr).isSome = true := by
      intro pr hpr3
      have hex : ∃ k, k ∈ p'.kernels ∧ k.processor = pr ∧
          c ∈ k.logical_cores := by
        cases hr0 : g0.role pr with
        | some i =>
          have hgr : groupsRole gs c pr = some i := by
            simp [groupsRole, hg0, hr0]
          have hx := (coreToKernelGroupList_spec p.kernels [] gs hg).1 c pr
          rw [hgr] at hx
          cases hl : lastRoleKernel p.kernels c pr with
          | none =>
            rw [hl] at hx
            simp [groupsRole, alookup] at hx
          | some i2 =>
            have hsome : (lastRoleKernel p.kernels c pr).isSome = true := by
              rw [hl]; rfl
            obtain ⟨k, hk, hkp, hkc⟩ :=
              (lastRoleKernel_isSome p.kernels c pr).mp hsome
            exact ⟨k, by rw [hker]; exact List.mem_append_left _ hk, hkp, hkc⟩
        | none =>
          obtain ⟨bk, hbk, hbkp, hbkc⟩ :=
            blankKernelsFor_covers p.kernels gs c g0 hg0 pr hpr3 hr0
          exact ⟨bk, by rw [hker]; exact List.mem_append_right _ hbk, hbkp,
            hbkc⟩
      have hlast : (lastRoleKernel p'.kernels c pr).isSome = true :=
        (lastRoleKernel_isSome p'.kernels c pr).mpr hex
      obtain ⟨i, hi⟩ := Option.isSome_iff_exists.mp hlast
      have hx := hspec.1 c pr
      rw [hi] at hx
      have hgi : g.role pr = some i := by
        rw [groupsRole, hcg] at hx
        simpa using hx
      rw [hgi]
      rfl
    exact ⟨hrole RISCV.BRISC (Or.inl rfl),
      hrole RISCV.NCRISC (Or.inr (Or.inl rfl)),
      hrole RISCV.COMPUTE (Or.inr (Or.inr rfl))⟩

/-- Witness for C3: one BRISC kernel on core (0,0); after blank-kernel
insertion the recomputed group on (0,0) has all three roles assigned. -/
theorem C3_witness :
    (Program.mk
        [Kernel.mk 0 RISCV.BRISC [CoreRange.mk (CoreCoord.mk 0 0) (CoreCoord.mk 0 0)]]
        [] [] false false).add_blank_kernels =
      .ok (Program.mk
        [Kernel.mk 0 RISCV.BRISC [CoreRange.mk (CoreCoord.mk 0 0) (CoreCoord.mk 0 0)],
         Kernel.mk 2 RISCV.NCRISC [CoreRange.mk (CoreCoord.mk 0 0) (CoreCoord.mk 0 0)],
         Kernel.mk 3 RISCV.COMPUTE [CoreRange.mk (CoreCoord.mk 0 0) (CoreCoord.mk 0 0)]]
        [] [] true false) ∧
    (({ riscv0_id := some 0, riscv1_id := some 2, compute_id := some 3,
        enable_brisc := true, enable_ncrisc := true, enable_triscs := true,
        run := RUN_MSG_GO } : KernelGroup).riscv0_id.isSome = true ∧
     ({ riscv0_id := some 0, riscv1_id := some 2, compute_id := some 3,
        enable_brisc := true, enable_ncrisc := true, enable_triscs := true,
        run := RUN_MSG_GO } : KernelGroup).riscv1_id.isSome = true ∧
     ({ riscv0_id := some 0, riscv1_id := some 2, compute_id := some 3,
        enable_brisc := true, enable_ncrisc := true, enable_triscs := true,
        run := RUN_MSG_GO } : KernelGroup).compute_id.isSome = true) :=
  ⟨by rfl,
   C3_blank_kernels_fill_all_roles
     (Program.mk
       [Kernel.mk 0 RISCV.BRISC [CoreRange.mk (CoreCoord.mk 0 0) (CoreCoord.mk 0 0)]]
       [] [] false false)
     (Program.mk
       [Kernel.mk 0 RISCV.BRISC [CoreRange.mk (CoreCoord.mk 0 0) (CoreCoord.mk 0 0)],
        Kernel.mk 2 RISCV.NCRISC [CoreRange.mk (CoreCoord.mk 0 0) (CoreCoord.mk 0 0)],
        Kernel.mk 3 RISCV.COMPUTE [CoreRange.mk (CoreCoord.mk 0 0) (CoreCoord.mk 0 0)]]
       [] [] true false)
     [(CoreCoord.mk 0 0,
       { riscv0_id := some 0, riscv1_id := some 2, compute_id := some 3,
         enable_brisc := true, enable_ncrisc := true, enable_triscs := true,
         run := RUN_MSG_GO })]
     (by rfl) (by rfl) (CoreCoord.mk 0 0)
     { riscv0_id := some 0, riscv1_id := some 2, compute_id := some 3,
       enable_brisc := true, enable_ncrisc := true, enable_triscs := true,
       run := RUN_MSG_GO }
     (by rfl)⟩

/-- The next-free-address candidate of a core's allocator (0 for an absent
core, which `allocate_circular_buffers` never queries). -/
def candidateAt (alloc : PerCoreCBAlloc) (c : CoreCoord) : Nat :=
  match alookup alloc c with
  | some cba => cba.get_address_candidate
  | none => 0

/-- An allocator-map entry with its address state reset; two maps agreeing
after `resetEntry` hold the same cores and occupied slot indices. -/
def resetEntry (e : CoreCoord × CircularBufferAllocator) :
    CoreCoord × CircularBufferAllocator :=
  (e.1, e.2.reset_available_addresses)

/-- Well-formedness of an allocator's occupied L1 regions: nonempty, kept in
strictly increasing address order with a gap between consecutive regions
(no overlap, no adjacent-but-unmerged pair), each region's start at or below
its end. -/
def regionsWF (l : List (Nat × Nat)) : Prop :=
  l ≠ [] ∧ List.Pairwise (fun r s => r.2 < s.1) l ∧ ∀ r ∈ l, r.1 ≤ r.2

instance (l : List (Nat × Nat)) : Decidable (regionsWF l) := by
  unfold regionsWF
  infer_instance

/-- A successful `mark_address` requires the address at or above the current
candidate, moves the candidate to `address + size`, and keeps the occupied
slot indices. -/
theorem mark_address_ok_cases (cba cba2 : CircularBufferAllocator)
    (addr size : Nat) (h : cba.mark_address addr size = .ok cba2) :
    cba.get_address_candidate ≤ addr ∧
    cba2.get_address_candidate = addr + size ∧
    cba2.indices = cba.indices := by
  unfold CircularBufferAllocator.mark_address at h
  by_cases hlt : addr < (cba.l1_regions.getLastD (0, 0)).2
  · rw [if_pos hlt] at h
    exact absurd h (by simp)
  · rw [if_neg hlt] at h
    have hle : cba.get_address_candidate ≤ addr := Nat.le_of_not_lt hlt
    by_cases heq : addr = (cba.l1_regions.getLastD (0, 0)).2
    · rw [if_pos heq] at h
      have h2 := Except.ok.inj h
      refine ⟨hle, ?_, by rw [← h2]⟩
      rw [← h2]
      show (List.getLastD (cba.l1_regions.dropLast ++
        [((cba.l1_regions.getLastD (0, 0)).1,
          (cba.l1_regions.getLastD (0, 0)).2 + size)]) (0, 0)).2 = addr + size
      rw [List.getLastD_concat]
      rw [heq]
    · rw [if_neg heq] at h
      have h2 := Except.ok.inj h
      refine ⟨hle, ?_, by rw [← h2]⟩
      rw [← h2]
      show (List.getLastD (cba.l1_regions ++ [(addr, addr + size)]) (0, 0)).2 =
        addr + size
      rw [List.getLastD_concat]

/-- A successful `mark_address` preserves well-formedness of the occupied
regions. -/
theorem mark_address_WF (cba cba2 : CircularBufferAllocator)
    (addr size : Nat) (hwf : regionsWF cba.l1_regions)
    (h : cba.mark_address addr size = .ok cba2) :
    regionsWF cba2.l1_regions := by
  obtain ⟨hne, hpw, hbd⟩ := hwf
  have hlastD : cba.l1_regions.getLastD (0, 0) = cba.l1_regions.getLast hne := by
    rw [List.getLastD_eq_getLast?, List.getLast?_eq_getLast _ hne]
    rfl
  have hdecomp : cba.l1_regions.dropLast ++ [cba.l1_regions.getLast hne] =
      cba.l1_regions := List.dropLast_append_getLast hne
  have hpw' := hpw
  rw [← hdecomp] at hpw'
  obtain ⟨hpwd, -, hrel⟩ := List.pairwise_append.mp hpw'
  have hlast_mem : cba.l1_regions.getLast hne ∈ cba.l1_regions :=
    List.getLast_mem hne
  have hlast_bd := hbd _ hlast_mem
  unfold CircularBufferAllocator.mark_address at h
  by_cases hlt : addr < (cba.l1_regions.getLastD (0, 0)).2
  · rw [if_pos hlt] at h
    exact absurd h (by simp)
  · rw [if_neg hlt] at h
    by_cases heq : addr = (cba.l1_regions.getLastD (0, 0)).2
    · rw [if_pos heq] at h
      have h2 := Except.ok.inj h
      rw [← h2]
      refine ⟨by simp, ?_, ?_⟩
      · refine List.pairwise_append.mpr ⟨hpwd, List.pairwise_singleton _ _, ?_⟩
        intro r hr s hs
        rw [List.mem_singleton.mp hs]
        show r.2 < (cba.l1_regions.getLastD (0, 0)).1
        rw [hlastD]
        exact hrel r hr _ (List.mem_singleton.mpr rfl)
      · intro r hr
        rcases List.mem_append.mp hr with h1 | h1
        · exact hbd r (List.dropLast_subset _ h1)
        · rw [List.mem_singleton.mp h1]
          rw [hlastD]
          calc (cba.l1_regions.getLast hne).1 ≤
              (cba.l1_regions.getLast hne).2 := hlast_bd
            _ ≤ (cba.l1_regions.getLast hne).2 + size := Nat.le_add_right _ _
    · rw [if_neg heq] at h
      have h2 := Except.ok.inj h
      rw [← h2]
      have hgt : (cba.l1_regions.getLastD (0, 0)).2 < addr :=
        Nat.lt_of_le_of_ne (Nat.le_of_not_lt hlt) (fun he => heq he.symm)
      refine ⟨by simp, ?_, ?_⟩
      · refine List.pairwise_append.mpr ⟨hpw, List.pairwise_singleton _ _, ?_⟩
        intro r hr s hs
        rw [List.mem_singleton.mp hs]
        show r.2 < addr
        rw [← hdecomp] at hr
        rcases List.mem_append.mp hr with h1 | h1
        · have := hrel r h1 _ (List.mem_singleton.mpr rfl)
          calc r.2 < (cba.l1_regions.getLast hne).1 := this
            _ ≤ (cba.l1_regions.getLast hne).2 := hlast_bd
            _ < addr := by rw [← hlastD]; exact hgt
        · rw [List.mem_singleton.mp h1]
          rw [hlastD] at hgt
          exact hgt
      · intro r hr
        rcases List.mem_append.mp hr with h1 | h1
        · exact hbd r h1
        · rw [List.mem_singleton.mp h1]
          exact Nat.le_add_right _ _

theorem mem_aupdate {α β : Type} [DecidableEq α] (m : List (α × β))
    (a : α) (b : β) (e : α × β) (h : e ∈ aupdate m a b) :
    e ∈ m ∨ e = (a, b) := by
  induction m with
  | nil => simp [aupdate] at h
  | cons e0 rest ih =>
    by_cases ha : a = e0.1
    · rw [aupdate, if_pos ha] at h
      rcases List.mem_cons.mp h with h1 | h1
      · exact Or.inr (by rw [h1, ha])
      · exact Or.inl (List.mem_cons_of_mem e0 h1)
    · rw [aupdate, if_neg ha] at h
      rcases List.mem_cons.mp h with h1 | h1
      · exact Or.inl (h1 ▸ List.mem_cons_self e0 rest)
      · rcases ih h1 with h2 | h2
        · exact Or.inl (List.mem_cons_of_mem e0 h2)
        · exact Or.inr h2

theorem map_resetEntry_aupdate (m : PerCoreCBAlloc) (c : CoreCoord)
    (cba cba2 : CircularBufferAllocator) (hl : alookup m c = some cba)
    (hidx : cba2.indices = cba.indices) :
    (aupdate m c cba2).map resetEntry = m.map resetEntry := by
  induction m with
  | nil => rfl
  | cons e0 rest ih =>
    by_cases hc : c = e0.1
    · rw [alookup, if_pos hc] at hl
      have hb : e0.2 = cba := Option.some.inj hl
      rw [aupdate, if_pos hc]
      have hhead : resetEntry (e0.1, cba2) = resetEntry e0 := by
        unfold resetEntry CircularBufferAllocator.reset_available_addresses
        rw [hidx, ← hb]
      rw [List.map_cons, List.map_cons, hhead]
    · rw [alookup, if_neg hc] at hl
      rw [aupdate, if_neg hc]
      rw [List.map_cons, List.map_cons, ih hl]

/-- The candidate of a present core is its allocator's candidate. -/
theorem candidateAt_some (alloc : PerCoreCBAlloc) (c : CoreCoord)
    (cba : CircularBufferAllocator) (h : alookup alloc c = some cba) :
    candidateAt alloc c = cba.get_address_candidate := by
  unfold candidateAt
  rw [h]

/-- Maps agreeing at a core have the same candidate there. -/
theorem candidateAt_congr (alloc alloc' : PerCoreCBAlloc) (c : CoreCoord)
    (h : alookup alloc c = alookup alloc' c) :
    candidateAt alloc c = candidateAt alloc' c := by
  unfold candidateAt
  rw [h]

/-- Effect of the marking loop: it installs `address + size` as the new
candidate on every listed core, leaves other cores' allocators untouched,
never lowers any candidate, keeps the domain, keeps all slot indices (the
reset images agree), and preserves region well-formedness. -/
theorem markAllCores_spec (addr size : Nat) :
    ∀ (cores : List CoreCoord) (alloc alloc2 : PerCoreCBAlloc),
      markAllCores addr size alloc cores = .ok alloc2 →
      (∀ c, c ∈ cores → candidateAt alloc2 c = addr + size) ∧
      (∀ c, c ∉ cores → alookup alloc2 c = alookup alloc c) ∧
      (∀ c, candidateAt alloc c ≤ candidateAt alloc2 c) ∧
      (∀ c, (alookup alloc2 c).isSome = (alookup alloc c).isSome) ∧
      alloc2.map resetEntry = alloc.map resetEntry ∧
      ((∀ e ∈ alloc, regionsWF e.2.l1_regions) →
        (∀ e ∈ alloc2, regionsWF e.2.l1_regions)) := by
  intro cores
  induction cores with
  | nil =>
    intro alloc alloc2 h
    have h0 : alloc = alloc2 := Except.ok.inj h
    subst h0
    exact ⟨by simp, fun c _ => rfl, fun c => Nat.le_refl _, fun c => rfl, rfl,
      fun hwf => hwf⟩
  | cons c0 rest ih =>
    intro alloc alloc2 h
    rw [markAllCores] at h
    cases hl : alookup alloc c0 with
    | none =>
      simp only [hl] at h
      exact absurd h (by simp)
    | some cba =>
      simp only [hl] at h
      cases hm : cba.mark_address addr size with
      | error e =>
        simp only [hm] at h
        exact absurd h (by simp)
      | ok cba2 =>
        simp only [hm] at h
        obtain ⟨hguard, hcand2, hidx⟩ := mark_address_ok_cases cba cba2 addr size hm
        obtain ⟨ih1, ih2, ih3, ih4, ih5, ih6⟩ := ih (aupdate alloc c0 cba2) alloc2 h
        have hself : alookup (aupdate alloc c0 cba2) c0 = some cba2 :=
          alookup_aupdate_self alloc c0 cba2 cba hl
        refine ⟨?_, ?_, ?_, ?_, ?_, ?_⟩
        · intro c hc
          by_cases hcr : c ∈ rest
          · exact ih1 c hcr
          · have hc0 : c = c0 := by
              rcases List.mem_cons.mp hc with h1 | h1
              · exact h1
              · exact absurd h1 hcr
            subst hc0
            rw [candidateAt_congr alloc2 (aupdate alloc c cba2) c (ih2 c hcr),
              candidateAt_some _ _ _ hself]
            exact hcand2
        · intro c hc
          have hc0 : c ≠ c0 := fun hh => hc (hh ▸ List.mem_cons_self c0 rest)
          have hcr : c ∉ rest := fun hh => hc (List.mem_cons_of_mem c0 hh)
          rw [ih2 c hcr, alookup_aupdate_ne alloc c0 c cba2 hc0]
        · intro c
          refine Nat.le_trans ?_ (ih3 c)
          by_cases hc0 : c = c0
          · subst hc0
            rw [candidateAt_some alloc c cba hl, candidateAt_some _ _ _ hself,
              hcand2]
            exact Nat.le_trans hguard (Nat.le_add_right _ _)
          · rw [candidateAt_congr (aupdate alloc c0 cba2) alloc c
              (alookup_aupdate_ne alloc c0 c cba2 hc0)]
        · intro c
          rw [ih4 c]
          by_cases hc0 : c = c0
          · subst hc0
            rw [hself, hl]
            rfl
          · rw [alookup_aupdate_ne alloc c0 c cba2 hc0]
        · rw [ih5]
          exact map_resetEntry_aupdate alloc c0 cba cba2 hl hidx
        · intro hwf
          refine ih6 ?_
          intro e he
          rcases mem_aupdate alloc c0 cba2 e he with h1 | h1
          · exact hwf e h1
          · rw [h1]
            exact mark_address_WF cba cba2 addr size
              (hwf (c0, cba) (mem_of_alookup alloc c0 cba hl)) hm

/-- The spec-side characterization of the buffer placement value: `m` is an
upper bound of the candidate addresses over the buffer's cores (all of which
have allocators) and is attained on at least one of them. -/
def isMaxCandidate (alloc : PerCoreCBAlloc) (cores : List CoreCoord)
    (m : Nat) : Prop :=
  (∀ c ∈ cores, (alookup alloc c).isSome = true ∧ candidateAt alloc c ≤ m) ∧
  (∃ c ∈ cores, candidateAt alloc c = m)

instance (alloc : PerCoreCBAlloc) (cores : List CoreCoord) (m : Nat) :
    Decidable (isMaxCandidate alloc cores m) := by
  unfold isMaxCandidate
  infer_instance

/-- `Nat.max` agrees with the `Max` instance (definitional). -/
theorem natMax_eq_max (a b : Nat) : Nat.max a b = max a b := rfl

/-- Running the candidate fold from a seeded accumulator yields the maximum
of the seed and the candidates along the list. -/
theorem collectCandidates_acc_spec :
    ∀ (cores : List CoreCoord) (alloc : PerCoreCBAlloc) (m0 : Nat)
      (r : Option Nat),
      collectCandidates alloc cores (some m0) = .ok r →
      ∃ m, r = some m ∧ m0 ≤ m ∧
        (∀ c ∈ cores, (alookup alloc c).isSome = true ∧
          candidateAt alloc c ≤ m) ∧
        (m = m0 ∨ ∃ c ∈ cores, candidateAt alloc c = m) := by
  intro cores
  induction cores with
  | nil =>
    intro alloc m0 r h
    have hr : some m0 = r := Except.ok.inj h
    exact ⟨m0, hr.symm, Nat.le_refl _, by simp, Or.inl rfl⟩
  | cons c0 rest ih =>
    intro alloc m0 r h
    rw [collectCandidates] at h
    cases hl : alookup alloc c0 with
    | none =>
      simp only [hl] at h
      exact absurd h (by simp)
    | some cba =>
      simp only [hl] at h
      obtain ⟨m, hr, hle, hbound, hatt⟩ := ih alloc
        (Nat.max m0 cba.get_address_candidate) r h
      have hcand : candidateAt alloc c0 = cba.get_address_candidate :=
        candidateAt_some alloc c0 cba hl
      refine ⟨m, hr, Nat.le_trans (Nat.le_max_left _ _) hle, ?_, ?_⟩
      · intro c hc
        rcases List.mem_cons.mp hc with h1 | h1
        · subst h1
          exact ⟨by rw [hl]; rfl,
            by rw [hcand]; exact Nat.le_trans (Nat.le_max_right _ _) hle⟩
        · exact hbound c h1
      · rcases hatt with h1 | ⟨c, hc, hcc⟩
        · rcases Nat.le_total m0 cba.get_address_candidate with h2 | h2
          · refine Or.inr ⟨c0, List.mem_cons_self c0 rest, ?_⟩
            rw [hcand, h1, natMax_eq_max]
            omega
          · refine Or.inl ?_
            rw [h1, natMax_eq_max]
            omega
        · exact Or.inr ⟨c, List.mem_cons_of_mem c0 hc, hcc⟩

/-- A successful candidate collection over a buffer's cores, started empty,
produces exactly the maximum candidate. -/
theorem collectCandidates_some_spec (alloc : PerCoreCBAlloc)
    (cores : List CoreCoord) (m : Nat)
    (h : collectCandidates alloc cores none = .ok (some m)) :
    isMaxCandidate alloc cores m := by
  cases cores with
  | nil =>
    have h0 : (none : Option Nat) = some m := Except.ok.inj h
    exact absurd h0 (by simp)
  | cons c0 rest =>
    rw [collectCandidates] at h
    cases hl : alookup alloc c0 with
    | none =>
      simp only [hl] at h
      exact absurd h (by simp)
    | some cba =>
      simp only [hl] at h
      obtain ⟨m', hr, hle, hbound, hatt⟩ :=
        collectCandidates_acc_spec rest alloc cba.get_address_candidate
          (some m) h
      have hm : m' = m := Option.some.inj hr.symm
      subst hm
      have hcand : candidateAt alloc c0 = cba.get_address_candidate :=
        candidateAt_some alloc c0 cba hl
      constructor
      · intro c hc
        rcases List.mem_cons.mp hc with h1 | h1
        · subst h1
          exact ⟨by rw [hl]; rfl, by rw [hcand]; exact hle⟩
        · exact hbound c h1
      · rcases hatt with h1 | ⟨c, hc, hcc⟩
        · exact ⟨c0, List.mem_cons_self c0 rest, by rw [hcand, h1]⟩
        · exact ⟨c, List.mem_cons_of_mem c0 hc, hcc⟩

/-- When every listed core has an allocator the candidate fold succeeds. -/
theorem collectCandidates_ok_of_present :
    ∀ (cores : List CoreCoord) (alloc : PerCoreCBAlloc) (acc : Option Nat),
      (∀ c ∈ cores, (alookup alloc c).isSome = true) →
      ∃ r, collectCandidates alloc cores acc = .ok r := by
  intro cores
  induction cores with
  | nil => intro alloc acc _; exact ⟨acc, rfl⟩
  | cons c0 rest ih =>
    intro alloc acc hp
    cases hl : alookup alloc c0 with
    | none =>
      have := hp c0 (List.mem_cons_self c0 rest)
      rw [hl] at this
      exact absurd this (by simp)
    | some cba =>
      obtain ⟨r, hr⟩ := ih alloc
        (some (match acc with
               | none => cba.get_address_candidate
               | some m => Nat.max m cba.get_address_candidate))
        (fun c hc => hp c (List.mem_cons_of_mem c0 hc))
      refine ⟨r, ?_⟩
      rw [collectCandidates]
      simp only [hl]
      exact hr

/-- Full behavior of one buffer-allocation step on success: the resolved
address `r` is the maximum candidate `m` when no address was requested, or
the requested address (necessarily at or above `m`); the buffer gets `r`
stamped on it, every touched core's candidate moves to `r + size`, untouched
cores are unchanged, candidates never decrease, the domain, slot indices and
region well-formedness are preserved. -/
theorem allocateOneCB_ok_spec (alloc alloc' : PerCoreCBAlloc)
    (cb cb' : CircularBuffer)
    (h : allocateOneCB alloc cb = .ok (alloc', cb')) :
    ∃ m r, isMaxCandidate alloc cb.cores m ∧
      cb' = { cb with address := some r } ∧
      (cb.config.requested_address = none → r = m) ∧
      (∀ req, cb.config.requested_address = some req → m ≤ req ∧ r = req) ∧
      m ≤ r ∧
      (∀ c, c ∈ cb.cores → candidateAt alloc' c = r + cb.size) ∧
      (∀ c, c ∉ cb.cores → alookup alloc' c = alookup alloc c) ∧
      (∀ c, candidateAt alloc c ≤ candidateAt alloc' c) ∧
      (∀ c, (alookup alloc' c).isSome = (alookup alloc c).isSome) ∧
      alloc'.map resetEntry = alloc.map resetEntry ∧
      ((∀ e ∈ alloc, regionsWF e.2.l1_regions) →
        (∀ e ∈ alloc', regionsWF e.2.l1_regions)) := by
  unfold allocateOneCB at h
  cases hcol : collectCandidates alloc cb.cores none with
  | error e =>
    rw [hcol] at h
    exact absurd h (by simp)
  | ok ocomp =>
    rw [hcol] at h
    cases ocomp with
    | none => exact absurd h (by simp)
    | some computed =>
      have hmax := collectCandidates_some_spec alloc cb.cores computed hcol
      cases hreq : cb.config.requested_address with
      | none =>
        simp only [hreq] at h
        cases hmk : markAllCores computed cb.size alloc cb.cores with
        | error e =>
          rw [hmk] at h
          exact absurd h (by simp)
        | ok alloc2 =>
          rw [hmk] at h
          have hinj := Except.ok.inj h
          have ha : alloc2 = alloc' := congrArg Prod.fst hinj
          have hb : { cb with address := some computed } = cb' :=
            congrArg Prod.snd hinj
          subst ha
          obtain ⟨m1, m2, m3, m4, m5, m6⟩ :=
            markAllCores_spec computed cb.size cb.cores alloc alloc2 hmk
          refine ⟨computed, computed, hmax, hb.symm, fun _ => rfl,
            fun req2 hr2 => ?_, Nat.le_refl _, m1, m2, m3, m4, m5, m6⟩
          exact absurd hr2 (by simp)
      | some req =>
        simp only [hreq] at h
        by_cases hlt : req < computed
        · rw [if_pos hlt] at h
          exact absurd h (by simp)
        · simp only [if_neg hlt] at h
          cases hmk : markAllCores req cb.size alloc cb.cores with
          | error e =>
            simp only [hmk] at h
            exact absurd h (by simp)
          | ok alloc2 =>
            simp only [hmk] at h
            have hinj := Except.ok.inj h
            have ha : alloc2 = alloc' := congrArg Prod.fst hinj
            have hb : { cb with address := some req } = cb' :=
              congrArg Prod.snd hinj
            subst ha
            obtain ⟨m1, m2, m3, m4, m5, m6⟩ :=
              markAllCores_spec req cb.size cb.cores alloc alloc2 hmk
            refine ⟨computed, req, hmax, hb.symm,
              fun hnone => ?_, fun req2 hr2 => ?_, Nat.le_of_not_lt hlt,
              m1, m2, m3, m4, m5, m6⟩
            · exact absurd hnone (by simp)
            · have hre : req = req2 := Option.some.inj hr2
              exact ⟨hre ▸ Nat.le_of_not_lt hlt, hre⟩

/-- An empty candidate fold result means there were no cores at all. -/
theorem collectCandidates_none_imp_nil (alloc : PerCoreCBAlloc) :
    ∀ cores, collectCandidates alloc cores none = .ok none → cores = [] := by
  intro cores h
  cases cores with
  | nil => rfl
  | cons c0 rest =>
    rw [collectCandidates] at h
    cases hl : alookup alloc c0 with
    | none =>
      simp only [hl] at h
      exact absurd h (by simp)
    | some cba =>
      simp only [hl] at h
      obtain ⟨m', hm', -⟩ :=
        collectCandidates_acc_spec rest alloc cba.get_address_candidate none h
      exact absurd hm' (by simp)

/-- A requested address strictly below the maximum candidate makes the
buffer-allocation step fatal. -/
theorem allocateOneCB_req_fail (alloc : PerCoreCBAlloc) (cb : CircularBuffer)
    (m req : Nat) (hmax : isMaxCandidate alloc cb.cores m)
    (hreq : cb.config.requested_address = some req) (hlt : req < m) :
    ∃ e, allocateOneCB alloc cb = .error e := by
  obtain ⟨hbound, c1, hc1, hcc1⟩ := hmax
  obtain ⟨r, hr⟩ := collectCandidates_ok_of_present cb.cores alloc none
    (fun c hc => (hbound c hc).1)
  cases r with
  | none =>
    have hnil := collectCandidates_none_imp_nil alloc cb.cores hr
    rw [hnil] at hc1
    exact absurd hc1 (List.not_mem_nil c1)
  | some computed =>
    have hmax' := collectCandidates_some_spec alloc cb.cores computed hr
    have heq : computed = m := by
      obtain ⟨hbound', c2, hc2, hcc2⟩ := hmax'
      have h1 : computed ≤ m := hcc2 ▸ (hbound c2 hc2).2
      have h2 : m ≤ computed := hcc1 ▸ (hbound' c1 hc1).2
      exact Nat.le_antisymm h1 h2
    have hlt' : req < computed := by
      rw [heq]
      exact hlt
    refine ⟨"Specified address should be at max local buffer region for core range set", ?_⟩
    unfold allocateOneCB
    rw [hr]
    simp only [hreq, if_pos hlt']

/-- Aggregate facts preserved by the whole buffer loop: candidates never
decrease, the map's domain, slot indices and region well-formedness are kept,
and the output buffer list has the input's length with each buffer's ranges
and config unchanged. -/
theorem allocateCBs_spec :
    ∀ (cbs : List CircularBuffer) (alloc alloc' : PerCoreCBAlloc)
      (cbs' : List CircularBuffer),
      allocateCBs alloc cbs = .ok (alloc', cbs') →
      (∀ c, candidateAt alloc c ≤ candidateAt alloc' c) ∧
      (∀ c, (alookup alloc' c).isSome = (alookup alloc c).isSome) ∧
      alloc'.map resetEntry = alloc.map resetEntry ∧
      ((∀ e ∈ alloc, regionsWF e.2.l1_regions) →
        (∀ e ∈ alloc', regionsWF e.2.l1_regions)) := by
  intro cbs
  induction cbs with
  | nil =>
    intro alloc alloc' cbs' h
    have h0 : (alloc, ([] : List CircularBuffer)) = (alloc', cbs') :=
      Except.ok.inj h
    have ha : alloc = alloc' := congrArg Prod.fst h0
    subst ha
    exact ⟨fun c => Nat.le_refl _, fun c => rfl, rfl, fun hwf => hwf⟩
  | cons cb rest ih =>
    intro alloc alloc' cbs' h
    rw [allocateCBs] at h
    cases h1 : allocateOneCB alloc cb with
    | error e =>
      simp only [h1] at h
      exact absurd h (by simp)
    | ok pr1 =>
      simp only [h1] at h
      cases h2 : allocateCBs pr1.1 rest with
      | error e =>
        simp only [h2] at h
        exact absurd h (by simp)
      | ok pr2 =>
        simp only [h2] at h
        have h0 := Except.ok.inj h
        have ha : pr2.1 = alloc' := congrArg Prod.fst h0
        obtain ⟨m0, r0, hmax0, hcb, hnone0, hsome0, hmr, hmark, huntouch,
          hmono, hkeys, hreset, hwf⟩ :=
          allocateOneCB_ok_spec alloc pr1.1 cb pr1.2 (by rw [h1])
        obtain ⟨i1, i2, i3, i4⟩ := ih pr1.1 pr2.1 pr2.2 (by rw [h2])
        subst ha
        exact ⟨fun c => Nat.le_trans (hmono c) (i1 c),
          fun c => (i2 c).trans (hkeys c),
          by rw [i3, hreset],
          fun hwf0 => i4 (hwf hwf0)⟩

/-- The buffer loop decomposes at any index: the prefix allocates first, then
buffer `j` is placed by one `allocateOneCB` step from the prefix state. -/
theorem allocateCBs_prefix :
    ∀ (cbs : List CircularBuffer) (alloc alloc' : PerCoreCBAlloc)
      (cbs' : List CircularBuffer),
      allocateCBs alloc cbs = .ok (alloc', cbs') →
      ∀ j (hj : j < cbs.length),
        ∃ allocj cbsj alloc1 cb',
          allocateCBs alloc (cbs.take j) = .ok (allocj, cbsj) ∧
          allocateOneCB allocj (cbs.get ⟨j, hj⟩) = .ok (alloc1, cb') ∧
          cbs'[j]? = some cb' := by
  intro cbs
  induction cbs with
  | nil =>
    intro alloc alloc' cbs' h j hj
    exact absurd hj (by simp)
  | cons cb rest ih =>
    intro alloc alloc' cbs' h j hj
    rw [allocateCBs] at h
    cases h1 : allocateOneCB alloc cb with
    | error e =>
      simp only [h1] at h
      exact absurd h (by simp)
    | ok pr1 =>
      simp only [h1] at h
      cases h2 : allocateCBs pr1.1 rest with
      | error e =>
        simp only [h2] at h
        exact absurd h (by simp)
      | ok pr2 =>
        simp only [h2] at h
        have h0 := Except.ok.inj h
        have hcbs' : pr1.2 :: pr2.2 = cbs' := congrArg Prod.snd h0
        cases j with
        | zero =>
          refine ⟨alloc, [], pr1.1, pr1.2, rfl, h1, ?_⟩
          rw [← hcbs']
          simp
        | succ j' =>
          have hj' : j' < rest.length := by simpa using hj
          obtain ⟨allocj, cbsj, alloc1, cb', hp1, hp2, hp3⟩ :=
            ih pr1.1 pr2.1 pr2.2 (by rw [h2]) j' hj'
          refine ⟨allocj, pr1.2 :: cbsj, alloc1, cb', ?_, hp2, ?_⟩
          · show allocateCBs alloc (cb :: rest.take j') = .ok (allocj, pr1.2 :: cbsj)
            rw [allocateCBs]
            simp only [h1, hp1]
          · rw [← hcbs']
            simpa using hp3

/-- Every buffer's resolved address is at or above the starting candidate of
each of its cores, and that core's final candidate is at or above the
buffer's end. -/
theorem allocateCBs_addr_lb :
    ∀ (cbs : List CircularBuffer) (alloc alloc' : PerCoreCBAlloc)
      (cbs' : List CircularBuffer),
      allocateCBs alloc cbs = .ok (alloc', cbs') →
      ∀ j (hj : j < cbs.length) (c : CoreCoord),
        c ∈ (cbs.get ⟨j, hj⟩).cores →
        ∃ cbj r, cbs'[j]? = some cbj ∧ cbj.address = some r ∧
          candidateAt alloc c ≤ r ∧
          r + (cbs.get ⟨j, hj⟩).size ≤ candidateAt alloc' c := by
  intro cbs
  induction cbs with
  | nil =>
    intro alloc alloc' cbs' h j hj
    exact absurd hj (by simp)
  | cons cb rest ih =>
    intro alloc alloc' cbs' h j hj c hc
    rw [allocateCBs] at h
    cases h1 : allocateOneCB alloc cb with
    | error e =>
      simp only [h1] at h
      exact absurd h (by simp)
    | ok pr1 =>
      simp only [h1] at h
      cases h2 : allocateCBs pr1.1 rest with
      | error e =>
        simp only [h2] at h
        exact absurd h (by simp)
      | ok pr2 =>
        simp only [h2] at h
        have h0 := Except.ok.inj h
        have ha : pr2.1 = alloc' := congrArg Prod.fst h0
        have hcbs' : pr1.2 :: pr2.2 = cbs' := congrArg Prod.snd h0
        obtain ⟨m0, r0, hmax0, hcb, -, -, hmr, hmark, -, hmono, -, -, -⟩ :=
          allocateOneCB_ok_spec alloc pr1.1 cb pr1.2 (by rw [h1])
        cases j with
        | zero =>
          obtain ⟨i1, -, -, -⟩ := allocateCBs_spec rest pr1.1 pr2.1 pr2.2
            (by rw [h2])
          refine ⟨pr1.2, r0, ?_, by rw [hcb], ?_, ?_⟩
          · rw [← hcbs']
            simp
          · exact Nat.le_trans ((hmax0.1 c hc).2) hmr
          · rw [← ha]
            refine Nat.le_trans ?_ (i1 c)
            show r0 + cb.size ≤ candidateAt pr1.1 c
            rw [hmark c hc]
        | succ j' =>
          have hj' : j' < rest.length := by simpa using hj
          obtain ⟨cbj, r, hp1, hp2, hp3, hp4⟩ :=
            ih pr1.1 pr2.1 pr2.2 (by rw [h2]) j' hj' c hc
          refine ⟨cbj, r, ?_, hp2, Nat.le_trans (hmono c) hp3, ?_⟩
          · rw [← hcbs']
            simpa using hp1
          · rw [← ha]
            exact hp4

/-- Two buffers of the loop sharing a core get non-overlapping placements:
the earlier one ends at or before the later one begins. -/
theorem allocateCBs_no_overlap :
    ∀ (cbs : List CircularBuffer) (alloc alloc' : PerCoreCBAlloc)
      (cbs' : List CircularBuffer),
      allocateCBs alloc cbs = .ok (alloc', cbs') →
      ∀ i j (hi : i < cbs.length) (hj : j < cbs.length), i < j →
      ∀ c, c ∈ (cbs.get ⟨i, hi⟩).cores → c ∈ (cbs.get ⟨j, hj⟩).cores →
      ∃ cbi cbj ai aj, cbs'[i]? = some cbi ∧ cbs'[j]? = some cbj ∧
        cbi.address = some ai ∧ cbj.address = some aj ∧
        ai + (cbs.get ⟨i, hi⟩).size ≤ aj := by
  intro cbs
  induction cbs with
  | nil =>
    intro alloc alloc' cbs' h i j hi hj
    exact absurd hi (by simp)
  | cons cb rest ih =>
    intro alloc alloc' cbs' h i j hi hj hij c hci hcj
    rw [allocateCBs] at h
    cases h1 : allocateOneCB alloc cb with
    | error e =>
      simp only [h1] at h
      exact absurd h (by simp)
    | ok pr1 =>
      simp only [h1] at h
      cases h2 : allocateCBs pr1.1 rest with
      | error e =>
        simp only [h2] at h
        exact absurd h (by simp)
      | ok pr2 =>
        simp only [h2] at h
        have h0 := Except.ok.inj h
        have hcbs' : pr1.2 :: pr2.2 = cbs' := congrArg Prod.snd h0
        cases i with
        | zero =>
          cases j with
          | zero => exact absurd hij (by simp)
          | succ j' =>
            have hj' : j' < rest.length := by simpa using hj
            obtain ⟨m0, r0, hmax0, hcb, -, -, hmr, hmark, -, -, -, -, -⟩ :=
              allocateOneCB_ok_spec alloc pr1.1 cb pr1.2 (by rw [h1])
            obtain ⟨cbj, r, hp1, hp2, hp3, hp4⟩ :=
              allocateCBs_addr_lb rest pr1.1 pr2.1 pr2.2 (by rw [h2]) j' hj'
                c hcj
            refine ⟨pr1.2, cbj, r0, r, ?_, ?_, by rw [hcb], hp2, ?_⟩
            · rw [← hcbs']
              simp
            · rw [← hcbs']
              simpa using hp1
            · show r0 + cb.size ≤ r
              rw [← hmark c hci]
              exact hp3
        | succ i' =>
          cases j with
          | zero => exact absurd hij (by omega)
          | succ j' =>
            have hi' : i' < rest.length := by simpa using hi
            have hj' : j' < rest.length := by simpa using hj
            obtain ⟨cbi, cbj, ai, aj, hq1, hq2, hq3, hq4, hq5⟩ :=
              ih pr1.1 pr2.1 pr2.2 (by rw [h2]) i' j' hi' hj' (by omega) c
                hci hcj
            refine ⟨cbi, cbj, ai, aj, ?_, ?_, hq3, hq4, hq5⟩
            · rw [← hcbs']
              simpa using hq1
            · rw [← hcbs']
              simpa using hq2

/-- Placement of a buffer ignores its (to-be-overwritten) address field. -/
theorem allocateOneCB_addr_irrel (alloc : PerCoreCBAlloc)
    (cb : CircularBuffer) (x : Option Nat) :
    allocateOneCB alloc { cb with address := x } = allocateOneCB alloc cb := by
  cases cb
  rfl

/-- Rerunning the buffer loop on its own output from the same starting map
reproduces the same result (the loop never reads the address field it
writes). -/
theorem allocateCBs_fixpoint :
    ∀ (cbs : List CircularBuffer) (alloc alloc' : PerCoreCBAlloc)
      (cbs' : List CircularBuffer),
      allocateCBs alloc cbs = .ok (alloc', cbs') →
      allocateCBs alloc cbs' = .ok (alloc', cbs') := by
  intro cbs
  induction cbs with
  | nil =>
    intro alloc alloc' cbs' h
    have h0 := Except.ok.inj h
    have hcbs' : ([] : List CircularBuffer) = cbs' := congrArg Prod.snd h0
    have ha : alloc = alloc' := congrArg Prod.fst h0
    rw [← hcbs', ← ha]
    rfl
  | cons cb rest ih =>
    intro alloc alloc' cbs' h
    rw [allocateCBs] at h
    cases h1 : allocateOneCB alloc cb with
    | error e =>
      simp only [h1] at h
      exact absurd h (by simp)
    | ok pr1 =>
      simp only [h1] at h
      cases h2 : allocateCBs pr1.1 rest with
      | error e =>
        simp only [h2] at h
        exact absurd h (by simp)
      | ok pr2 =>
        simp only [h2] at h
        have h0 := Except.ok.inj h
        have hcbs' : pr1.2 :: pr2.2 = cbs' := congrArg Prod.snd h0
        have ha : pr2.1 = alloc' := congrArg Prod.fst h0
        obtain ⟨m0, r0, -, hcb, -, -, -, -, -, -, -, -, -⟩ :=
          allocateOneCB_ok_spec alloc pr1.1 cb pr1.2 (by rw [h1])
        have hstep : allocateOneCB alloc pr1.2 = .ok (pr1.1, pr1.2) := by
          rw [hcb, allocateOneCB_addr_irrel alloc cb (some r0), h1, ← hcb]
        have hrest := ih pr1.1 pr2.1 pr2.2 (by rw [h2])
        rw [← hcbs', ← ha]
        rw [allocateCBs]
        simp only [hstep, hrest]

/-- C1: during `allocate_circular_buffers` each buffer, processed in
registration order, resolves to the maximum of `get_address_candidate` over
all cores of its range set (taken in the allocator state left by the previous
buffers); a requested address at or above that maximum is honored exactly and
one strictly below it fails fatally; the resolved address is set on the
buffer and marked into every touched core's allocator (whose candidate
becomes the buffer's end address). -/
theorem C1_allocate_resolves_max_candidate :
    (∀ (p p' : Program),
        p.circular_buffer_allocation_needed_ = true →
        p.allocate_circular_buffers = .ok p' →
        ∀ j (hj : j < p.circular_buffers_.length),
          ∃ allocj cbsj alloc1 cbj m r,
            allocateCBs p.per_core_cb_allocator_
              (p.circular_buffers_.take j) = .ok (allocj, cbsj) ∧
            isMaxCandidate allocj ((p.circular_buffers_.get ⟨j, hj⟩).cores) m ∧
            allocateOneCB allocj (p.circular_buffers_.get ⟨j, hj⟩) =
              .ok (alloc1, cbj) ∧
            p'.circular_buffers_[j]? = some cbj ∧
            cbj.address = some r ∧
            ((p.circular_buffers_.get ⟨j, hj⟩).config.requested_address =
              none → r = m) ∧
            (∀ req,
              (p.circular_buffers_.get ⟨j, hj⟩).config.requested_address =
                some req → m ≤ req ∧ r = req) ∧
            (∀ c, c ∈ (p.circular_buffers_.get ⟨j, hj⟩).cores →
              candidateAt alloc1 c =
                r + (p.circular_buffers_.get ⟨j, hj⟩).size)) ∧
    (∀ (alloc : PerCoreCBAlloc) (cb : CircularBuffer) (m req : Nat),
        isMaxCandidate alloc cb.cores m →
        cb.config.requested_address = some req → req < m →
        ∃ e, allocateOneCB alloc cb = .error e) := by
  constructor
  · intro p p' hflag h j hj
    unfold Program.allocate_circular_buffers at h
    rw [if_neg (by simp [hflag])] at h
    cases hcbs : allocateCBs p.per_core_cb_allocator_ p.circular_buffers_ with
    | error e =>
      simp only [hcbs] at h
      exact absurd h (by simp)
    | ok pr =>
      simp only [hcbs] at h
      have hp' := Except.ok.inj h
      have hcbs2 : p'.circular_buffers_ = pr.2 := by
        rw [← hp']
      obtain ⟨allocj, cbsj, alloc1, cbj, hp1, hp2, hp3⟩ :=
        allocateCBs_prefix p.circular_buffers_ p.per_core_cb_allocator_
          pr.1 pr.2 (by rw [hcbs]) j hj
      obtain ⟨m, r, hmax, hcb, hnone, hsome, hmr, hmark, -, -, -, -, -⟩ :=
        allocateOneCB_ok_spec allocj alloc1
          (p.circular_buffers_.get ⟨j, hj⟩) cbj hp2
      refine ⟨allocj, cbsj, alloc1, cbj, m, r, hp1, hmax, hp2, ?_,
        by rw [hcb], hnone, hsome, hmark⟩
      rw [hcbs2]
      exact hp3
  · intro alloc cb m req hmax hreq hlt
    exact allocateOneCB_req_fail alloc cb m req hmax hreq hlt

/-- Fixture: the single core range covering only core (0,0). -/
def wr00 : CoreRange := CoreRange.mk (CoreCoord.mk 0 0) (CoreCoord.mk 0 0)

/-- Fixture: a 100-byte circular buffer on slot 0 of core (0,0). -/
def wCB1 : CircularBuffer :=
  CircularBuffer.mk [wr00] (CircularBufferConfig.mk 100 [0] none) none

/-- Fixture: a 50-byte circular buffer on slot 1 of core (0,0). -/
def wCB2 : CircularBuffer :=
  CircularBuffer.mk [wr00] (CircularBufferConfig.mk 50 [1] none) none

/-- Fixture: the per-core allocator map holding only core (0,0), fresh. -/
def wAlloc0 : PerCoreCBAlloc :=
  [(CoreCoord.mk 0 0, CircularBufferAllocator.init)]

/-- Fixture: a program with one registered buffer, allocation pending. -/
def wP1 : Program := Program.mk [] [wCB1] wAlloc0 false true

/-- Fixture: `wP1` after allocation. -/
def wP1' : Program :=
  Program.mk []
    [CircularBuffer.mk [wr00] (CircularBufferConfig.mk 100 [0] none)
      (some L1_UNRESERVED_BASE)]
    [(CoreCoord.mk 0 0, CircularBufferAllocator.mk []
      [(L1_UNRESERVED_BASE, L1_UNRESERVED_BASE + 100)])]
    false false

/-- Fixture: a program with two buffers on the same core, allocation
pending. -/
def wP2 : Program := Program.mk [] [wCB1, wCB2] wAlloc0 false true

/-- Fixture: `wP2` after allocation — the second buffer lands right after the
first. -/
def wP2' : Program :=
  Program.mk []
    [CircularBuffer.mk [wr00] (CircularBufferConfig.mk 100 [0] none)
      (some L1_UNRESERVED_BASE),
     CircularBuffer.mk [wr00] (CircularBufferConfig.mk 50 [1] none)
      (some (L1_UNRESERVED_BASE + 100))]
    [(CoreCoord.mk 0 0, CircularBufferAllocator.mk []
      [(L1_UNRESERVED_BASE, L1_UNRESERVED_BASE + 150)])]
    false false

/-- Witness for C1: allocating `wP1` resolves its single buffer to the
maximum candidate of its cores (the reserved base), and a requested address
of 5, below that maximum, is fatal. -/
theorem C1_witness :
    (∃ allocj cbsj alloc1 cbj m r,
      allocateCBs wAlloc0 [] = .ok (allocj, cbsj) ∧
      isMaxCandidate allocj wCB1.cores m ∧
      allocateOneCB allocj wCB1 = .ok (alloc1, cbj) ∧
      wP1'.circular_buffers_[0]? = some cbj ∧
      cbj.address = some r ∧
      (wCB1.config.requested_address = none → r = m) ∧
      (∀ req, wCB1.config.requested_address = some req →
        m ≤ req ∧ r = req) ∧
      (∀ c, c ∈ wCB1.cores → candidateAt alloc1 c = r + wCB1.size)) ∧
    (∃ e, allocateOneCB wAlloc0
      (CircularBuffer.mk [wr00] (CircularBufferConfig.mk 100 [0] (some 5))
        none) = .error e) :=
  ⟨C1_allocate_resolves_max_candidate.1 wP1 wP1' rfl (by rfl) 0 (by decide),
   C1_allocate_resolves_max_candidate.2 wAlloc0
     (CircularBuffer.mk [wr00] (CircularBufferConfig.mk 100 [0] (some 5))
       none)
     L1_UNRESERVED_BASE 5 (by decide) rfl (by decide)⟩

/-- Resetting allocator addresses is the identity on maps whose allocators
are already in the pre-allocation state. -/
theorem map_resetEntry_id (m : PerCoreCBAlloc)
    (h : ∀ e ∈ m, e.2.l1_regions =
      [(L1_UNRESERVED_BASE, L1_UNRESERVED_BASE)]) :
    m.map resetEntry = m := by
  induction m with
  | nil => rfl
  | cons e rest ih =>
    have he := h e (List.mem_cons_self e rest)
    have hentry : resetEntry e = e := by
      cases e with
      | mk c cba =>
        cases cba with
        | mk idx regs =>
          unfold resetEntry CircularBufferAllocator.reset_available_addresses
          simp only at he
          rw [← he]
    rw [List.map_cons, hentry,
      ih (fun e' he' => h e' (List.mem_cons_of_mem e he'))]

/-- C9: for a program whose per-core allocators are in the pre-allocation
state, a successful allocation followed by invalidation (which resets the
allocators and re-arms the dirty flag) and reallocation reproduces the exact
same program — in particular every circular buffer resolves to the identical
address. -/
theorem C9_reallocation_deterministic (p p1 : Program)
    (hflag : p.circular_buffer_allocation_needed_ = true)
    (hinit : ∀ e ∈ p.per_core_cb_allocator_,
      e.2.l1_regions = [(L1_UNRESERVED_BASE, L1_UNRESERVED_BASE)])
    (h : p.allocate_circular_buffers = .ok p1) :
    p1.invalidate_circular_buffer_allocation.allocate_circular_buffers =
      .ok p1 := by
  unfold Program.allocate_circular_buffers at h
  rw [if_neg (by simp [hflag])] at h
  cases hcbs : allocateCBs p.per_core_cb_allocator_ p.circular_buffers_ with
  | error e =>
    simp only [hcbs] at h
    exact absurd h (by simp)
  | ok pr =>
    simp only [hcbs] at h
    have hp1 := Except.ok.inj h
    subst hp1
    obtain ⟨-, -, hreset, -⟩ :=
      allocateCBs_spec p.circular_buffers_ p.per_core_cb_allocator_ pr.1 pr.2
        (by rw [hcbs])
    have hm1 : pr.1.map
        (fun ca => (ca.1, ca.2.reset_available_addresses)) =
        p.per_core_cb_allocator_ := by
      show pr.1.map resetEntry = p.per_core_cb_allocator_
      rw [hreset]
      exact map_resetEntry_id p.per_core_cb_allocator_ hinit
    have hfix := allocateCBs_fixpoint p.circular_buffers_
      p.per_core_cb_allocator_ pr.1 pr.2 (by rw [hcbs])
    have hinv : Program.invalidate_circular_buffer_allocation
        { p with per_core_cb_allocator_ := pr.1, circular_buffers_ := pr.2,
                 circular_buffer_allocation_needed_ := false } =
        { p with circular_buffers_ := pr.2,
                 circular_buffer_allocation_needed_ := true } := by
      unfold Program.invalidate_circular_buffer_allocation
      rw [if_neg (by simp)]
      simp only [Program.mk.injEq, and_true, true_and]
      exact hm1
    rw [hinv]
    unfold Program.allocate_circular_buffers
    rw [if_neg (by simp)]
    simp only [hfix]

/-- The buffer loop only fills in addresses: ranges and config of the j-th
output buffer are those of the j-th input buffer. -/
theorem allocateCBs_shape :
    ∀ (cbs : List CircularBuffer) (alloc alloc' : PerCoreCBAlloc)
      (cbs' : List CircularBuffer),
      allocateCBs alloc cbs = .ok (alloc', cbs') →
      ∀ j (hj : j < cbs.length) cbj, cbs'[j]? = some cbj →
        cbj.core_ranges = (cbs.get ⟨j, hj⟩).core_ranges ∧
        cbj.config = (cbs.get ⟨j, hj⟩).config := by
  intro cbs alloc alloc' cbs' h j hj cbj hcbj
  obtain ⟨allocj, cbsj, alloc1, cb', -, hp2, hp3⟩ :=
    allocateCBs_prefix cbs alloc alloc' cbs' h j hj
  obtain ⟨m0, r0, -, hcb, -, -, -, -, -, -, -, -, -⟩ :=
    allocateOneCB_ok_spec allocj alloc1 (cbs.get ⟨j, hj⟩) cb' hp2
  have hce : cb' = cbj := Option.some.inj (hp3 ▸ hcbj)
  rw [← hce, hcb]
  exact ⟨rfl, rfl⟩

/-- C2: after a successful allocation, any two distinct circular buffers
sharing a core occupy disjoint byte ranges, and every per-core allocator's
occupied regions stay well-formed (address-ordered, mutually disjoint, never
adjacent-but-unmerged) with the last region's end equal to the next free
candidate address. -/
theorem C2_no_overlap_and_allocator_invariant :
    ∀ (p p' : Program),
      p.circular_buffer_allocation_needed_ = true →
      (∀ e ∈ p.per_core_cb_allocator_, regionsWF e.2.l1_regions) →
      p.allocate_circular_buffers = .ok p' →
      (∀ i j (hi : i < p.circular_buffers_.length)
          (hj : j < p.circular_buffers_.length), i ≠ j →
          ∀ c, c ∈ (p.circular_buffers_.get ⟨i, hi⟩).cores →
            c ∈ (p.circular_buffers_.get ⟨j, hj⟩).cores →
          ∃ cbi cbj ai aj,
            p'.circular_buffers_[i]? = some cbi ∧
            p'.circular_buffers_[j]? = some cbj ∧
            cbi.address = some ai ∧ cbj.address = some aj ∧
            (ai + cbi.size ≤ aj ∨ aj + cbj.size ≤ ai)) ∧
      (∀ e ∈ p'.per_core_cb_allocator_, regionsWF e.2.l1_regions ∧
          e.2.get_address_candidate = (e.2.l1_regions.getLastD (0, 0)).2) := by
  intro p p' hflag hwf h
  unfold Program.allocate_circular_buffers at h
  rw [if_neg (by simp [hflag])] at h
  cases hcbs : allocateCBs p.per_core_cb_allocator_ p.circular_buffers_ with
  | error e =>
    simp only [hcbs] at h
    exact absurd h (by simp)
  | ok pr =>
    simp only [hcbs] at h
    have hp' := Except.ok.inj h
    have hcbs2 : p'.circular_buffers_ = pr.2 := by rw [← hp']
    have halloc2 : p'.per_core_cb_allocator_ = pr.1 := by rw [← hp']
    constructor
    · intro i j hi hj hne c hci hcj
      rcases Nat.lt_or_ge i j with hij | hge
      · obtain ⟨cbi, cbj, ai, aj, hq1, hq2, hq3, hq4, hq5⟩ :=
          allocateCBs_no_overlap p.circular_buffers_ p.per_core_cb_allocator_
            pr.1 pr.2 (by rw [hcbs]) i j hi hj hij c hci hcj
        obtain ⟨-, hcfg⟩ := allocateCBs_shape p.circular_buffers_
          p.per_core_cb_allocator_ pr.1 pr.2 (by rw [hcbs]) i hi cbi hq1
        refine ⟨cbi, cbj, ai, aj, by rw [hcbs2]; exact hq1,
          by rw [hcbs2]; exact hq2, hq3, hq4, Or.inl ?_⟩
        have hsz : cbi.size = (p.circular_buffers_.get ⟨i, hi⟩).size := by
          unfold CircularBuffer.size
          rw [hcfg]
        rw [hsz]
        exact hq5
      · have hij2 : j < i := Nat.lt_of_le_of_ne hge (fun hh => hne hh.symm)
        obtain ⟨cbj0, cbi0, aj0, ai0, hq1, hq2, hq3, hq4, hq5⟩ :=
          allocateCBs_no_overlap p.circular_buffers_ p.per_core_cb_allocator_
            pr.1 pr.2 (by rw [hcbs]) j i hj hi hij2 c hcj hci
        obtain ⟨-, hcfg⟩ := allocateCBs_shape p.circular_buffers_
          p.per_core_cb_allocator_ pr.1 pr.2 (by rw [hcbs]) j hj cbj0 hq1
        refine ⟨cbi0, cbj0, ai0, aj0, by rw [hcbs2]; exact hq2,
          by rw [hcbs2]; exact hq1, hq4, hq3, Or.inr ?_⟩
        have hsz : cbj0.size = (p.circular_buffers_.get ⟨j, hj⟩).size := by
          unfold CircularBuffer.size
          rw [hcfg]
        rw [hsz]
        exact hq5
    · intro e he
      rw [halloc2] at he
      obtain ⟨-, -, -, hwf'⟩ := allocateCBs_spec p.circular_buffers_
        p.per_core_cb_allocator_ pr.1 pr.2 (by rw [hcbs])
      exact ⟨hwf' hwf e he, rfl⟩

/-- Witness for C2: the two same-core buffers of `wP2` resolve to disjoint
ranges, and the single allocator of the result is well-formed with its last
region's end as the candidate. -/
theorem C2_witness :
    (∃ cbi cbj ai aj,
      wP2'.circular_buffers_[0]? = some cbi ∧
      wP2'.circular_buffers_[1]? = some cbj ∧
      cbi.address = some ai ∧ cbj.address = some aj ∧
      (ai + cbi.size ≤ aj ∨ aj + cbj.size ≤ ai)) ∧
    (regionsWF (CircularBufferAllocator.mk []
        [(L1_UNRESERVED_BASE, L1_UNRESERVED_BASE + 150)]).l1_regions ∧
      (CircularBufferAllocator.mk []
        [(L1_UNRESERVED_BASE, L1_UNRESERVED_BASE + 150)]).get_address_candidate =
        ((CircularBufferAllocator.mk []
          [(L1_UNRESERVED_BASE, L1_UNRESERVED_BASE + 150)]).l1_regions.getLastD
            (0, 0)).2) :=
  have h := C2_no_overlap_and_allocator_invariant wP2 wP2' rfl (by decide)
    (by rfl)
  ⟨h.1 0 1 (by decide) (by decide) (by decide) (CoreCoord.mk 0 0) (by decide)
     (by decide),
   h.2 (CoreCoord.mk 0 0, CircularBufferAllocator.mk []
     [(L1_UNRESERVED_BASE, L1_UNRESERVED_BASE + 150)]) (by decide)⟩

/-- Witness for C9: invalidating and reallocating the allocated two-buffer
program reproduces it exactly, addresses included. -/
theorem C9_witness :
    wP2'.invalidate_circular_buffer_allocation.allocate_circular_buffers =
      .ok wP2' :=
  C9_reallocation_deterministic wP2 wP2' rfl (by decide) (by rfl)

/-- One step of the ceiling-division count: a nonempty burst remainder adds
one page write. -/
theorem ceilDiv_succ_step (n pp : Nat) (hn : 0 < n) (hpp : 0 < pp) :
    (n + pp - 1) / pp = ((n - pp) + pp - 1) / pp + 1 := by
  rcases Nat.le_total pp n with hcase | hcase
  · have h1 : n + pp - 1 = (n - pp) + pp - 1 + pp := by omega
    rw [h1, Nat.add_div_right _ hpp]
  · have h1 : n - pp = 0 := by omega
    rw [h1]
    have h2 : (n + pp - 1) / pp = 1 :=
      Nat.div_eq_of_lt_le (by omega) (by omega)
    have h3 : (0 + pp - 1) / pp = 0 := Nat.div_eq_of_lt (by omega)
    rw [h2, h3]

/-- The per-burst page loop terminates with enough fuel (one unit per
remaining byte suffices when the padded page size is positive), producing
`⌈(read_size - i) / padded_page⌉` page writes and no staging reads. -/
theorem innerPages_ok (pp page : Nat) (hpp : 0 < pp) :
    ∀ (fuel i rs loc bank : Nat), rs - i ≤ fuel →
      ∃ writes bank', innerPages pp page fuel i rs loc bank =
        some (writes, bank') ∧
        numPageWrites writes = ((rs - i) + pp - 1) / pp ∧
        stageReadSizes writes = [] := by
  intro fuel
  induction fuel with
  | zero =>
    intro i rs loc bank hf
    have hge : rs ≤ i := by omega
    have hni : ¬i < rs := by omega
    refine ⟨[], bank, ?_, ?_, rfl⟩
    · rw [innerPages, if_neg hni]
    · have h0 : rs - i = 0 := by omega
      rw [h0]
      show 0 = (0 + pp - 1) / pp
      rw [Nat.div_eq_of_lt (by omega)]
  | succ fuel ih =>
    intro i rs loc bank hf
    by_cases hi : i < rs
    · obtain ⟨writes, bank', hw, hcount, hsrs⟩ :=
        ih (i + pp) rs (loc + pp) (bank + 1) (by omega)
      refine ⟨XferAction.pageWrite loc bank page :: writes, bank', ?_, ?_, ?_⟩
      · rw [innerPages, if_pos hi, hw]
      · show numPageWrites (XferAction.pageWrite loc bank page :: writes) =
          ((rs - i) + pp - 1) / pp
        have hn : rs - (i + pp) = (rs - i) - pp := by omega
        have hstep := ceilDiv_succ_step (rs - i) pp (by omega) hpp
        unfold numPageWrites at hcount ⊢
        simp only [List.filterMap_cons]
        rw [List.length_cons, hcount, hn, hstep]
      · show stageReadSizes (XferAction.pageWrite loc bank page :: writes) = []
        unfold stageReadSizes at hsrs ⊢
        simp only [List.filterMap_cons]
        exact hsrs
    · refine ⟨[], bank, ?_, ?_, rfl⟩
      · rw [innerPages, if_neg hi]
      · have h0 : rs - i = 0 := by omega
        rw [h0]
        show 0 = (0 + pp - 1) / pp
        rw [Nat.div_eq_of_lt (by omega)]

theorem foldl_add_shift (g : Nat → Nat) :
    ∀ (l : List Nat) (a : Nat),
      l.foldl (fun n r => n + g r) a = a + l.foldl (fun n r => n + g r) 0 := by
  intro l
  induction l with
  | nil => intro a; simp
  | cons r rest ih =>
    intro a
    rw [List.foldl_cons, List.foldl_cons, ih (a + g r), ih (0 + g r)]
    omega

/-- Every reference burst size is positive-capped by the burst limit. -/
theorem burstSizes_le (burst : Nat) :
    ∀ rem, ∀ s ∈ burstSizes burst rem, s ≤ burst := by
  intro rem
  induction rem using Nat.strong_induction_on with
  | _ rem ih =>
    intro s hs
    rw [burstSizes] at hs
    by_cases h0 : rem = 0 ∨ burst = 0
    · rw [dif_pos h0] at hs
      exact absurd hs (List.not_mem_nil s)
    · rw [dif_neg h0] at hs
      push_neg at h0
      rcases List.mem_cons.mp hs with h1 | h1
      · rw [h1]
        exact Nat.min_le_left _ _
      · have hlt : rem - Nat.min burst rem < rem := by
          have : 0 < Nat.min burst rem :=
            lt_min (Nat.pos_of_ne_zero h0.2) (Nat.pos_of_ne_zero h0.1)
          omega
        exact ih _ hlt s h1

/-- The reference burst sizes consume exactly the padded buffer size. -/
theorem burstSizes_sum (burst : Nat) :
    ∀ rem, (burstSizes burst rem).sum = if burst = 0 then 0 else rem := by
  intro rem
  induction rem using Nat.strong_induction_on with
  | _ rem ih =>
    rw [burstSizes]
    by_cases h0 : rem = 0 ∨ burst = 0
    · rw [dif_pos h0]
      rcases h0 with h1 | h1
      · simp [h1]
      · simp [h1]
    · rw [dif_neg h0]
      push_neg at h0
      have hlt : rem - Nat.min burst rem < rem := by
        have : 0 < Nat.min burst rem :=
          lt_min (Nat.pos_of_ne_zero h0.2) (Nat.pos_of_ne_zero h0.1)
        omega
      rw [List.sum_cons, ih _ hlt]
      simp only [if_neg h0.2]
      have : Nat.min burst rem ≤ rem := Nat.min_le_right _ _
      omega

/-- The burst loop with fuel at least the remaining byte count terminates
and produces exactly the reference burst reads, with
`⌈read / padded_page⌉` page writes per burst. -/
theorem write_buffer_loop_spec (burst page pp : Nat) (hb : 0 < burst)
    (hpp : 0 < pp) :
    ∀ (rem fuel src bank : Nat), rem ≤ fuel →
      ∃ acts, write_buffer_loop burst page pp fuel src rem bank = some acts ∧
        stageReadSizes acts = burstSizes burst rem ∧
        numPageWrites acts =
          (burstSizes burst rem).foldl (fun n r => n + (r + pp - 1) / pp) 0 := by
  intro rem
  induction rem using Nat.strong_induction_on with
  | _ rem ih =>
    intro fuel src bank hfuel
    by_cases h0 : rem = 0
    · subst h0
      refine ⟨[], ?_, ?_, ?_⟩
      · cases fuel with
        | zero => rw [write_buffer_loop]; rfl
        | succ fuel => rw [write_buffer_loop]; rfl
      · rw [burstSizes, dif_pos (Or.inl rfl)]
        rfl
      · rw [burstSizes, dif_pos (Or.inl rfl)]
        rfl
    · cases fuel with
      | zero => omega
      | succ fuel =>
        have hread : 0 < Nat.min burst rem :=
          lt_min hb (Nat.pos_of_ne_zero h0)
        obtain ⟨pages, bank', hinner, hpcount, hpsrs⟩ :=
          innerPages_ok pp page hpp (Nat.min burst rem + 1) 0
            (Nat.min burst rem) DEVICE_COMMAND_DATA_ADDR bank (by omega)
        have hlt : rem - Nat.min burst rem < rem := by omega
        obtain ⟨rest, hrest, hrsrs, hrcount⟩ :=
          ih _ hlt fuel (src + Nat.min burst rem) bank' (by omega)
        refine ⟨XferAction.stageRead src (Nat.min burst rem) ::
          XferAction.readBarrier :: pages ++ XferAction.writeBarrier :: rest,
          ?_, ?_, ?_⟩
        · rw [write_buffer_loop, if_neg h0]
          simp only [hinner, hrest]
        · unfold stageReadSizes at hpsrs hrsrs ⊢
          conv_rhs => rw [burstSizes]
          rw [dif_neg (show ¬(rem = 0 ∨ burst = 0) by omega)]
          simp only [List.filterMap_cons, List.filterMap_append, hpsrs, hrsrs,
            List.nil_append, List.singleton_append]
        · unfold numPageWrites at hpcount hrcount ⊢
          conv_rhs => rw [burstSizes]
          rw [dif_neg (show ¬(rem = 0 ∨ burst = 0) by omega)]
          rw [List.foldl_cons, foldl_add_shift]
          simp only [List.filterMap_cons, List.filterMap_append,
            List.length_append]
          rw [hrcount]
          have hp0 : Nat.min burst rem - 0 = Nat.min burst rem := by omega
          rw [hp0] at hpcount
          rw [hpcount]
          omega

/-- C8: for a buffer-write record with positive burst and padded-page sizes,
the streaming loop terminates, staging exactly `min(burst, remaining)` bytes
per iteration until the full padded size is consumed — so no staging read
exceeds the burst chunk size, the reads sum to the padded size — and issues
one sub-transfer per padded page within each burst. -/
theorem C8_write_buffer_burst_streaming
    (src padded_buf_size burst page pp : Nat) (hb : 0 < burst)
    (hpp : 0 < pp) :
    ∃ acts,
      write_buffer src padded_buf_size burst page pp (padded_buf_size + 1) =
        some acts ∧
      stageReadSizes acts = burstSizes burst padded_buf_size ∧
      (stageReadSizes acts).sum = padded_buf_size ∧
      (∀ s ∈ stageReadSizes acts, s ≤ burst) ∧
      numPageWrites acts =
        (burstSizes burst padded_buf_size).foldl
          (fun n r => n + (r + pp - 1) / pp) 0 := by
  obtain ⟨acts, h1, h2, h3⟩ :=
    write_buffer_loop_spec burst page pp hb hpp padded_buf_size
      (padded_buf_size + 1) src 0 (by omega)
  refine ⟨acts, h1, h2, ?_, ?_, h3⟩
  · rw [h2, burstSizes_sum, if_neg (by omega)]
  · intro s hs
    rw [h2] at hs
    exact burstSizes_le burst padded_buf_size s hs

/-- Witness for C8: a 24-byte padded transfer with a 16-byte burst limit and
8-byte padded pages streams as two bursts (16 then 8) totalling 24 bytes,
each read within the burst limit, with two page writes then one. -/
theorem C8_witness :
    ∃ acts,
      write_buffer 1000 24 16 6 8 25 = some acts ∧
      stageReadSizes acts = burstSizes 16 24 ∧
      (stageReadSizes acts).sum = 24 ∧
      (∀ s ∈ stageReadSizes acts, s ≤ 16) ∧
      numPageWrites acts =
        (burstSizes 16 24).foldl (fun n r => n + (r + 8 - 1) / 8) 0 :=
  C8_write_buffer_burst_streaming 1000 24 16 6 8 (by decide) (by decide)

/-- With a zero burst chunk size the streaming loop makes no progress: the
staged read size is `min(0, remaining) = 0`, the remainder never decreases,
and the loop never terminates (no fuel suffices). -/
theorem write_buffer_loop_burst0_none :
    ∀ fuel src bank, write_buffer_loop 0 6 8 fuel src 1 bank = none := by
  intro fuel
  induction fuel with
  | zero =>
    intro src bank
    rfl
  | succ f ih =>
    intro src bank
    rw [write_buffer_loop, if_neg (by omega : ¬(1 = 0))]
    have hip : innerPages 8 6 1 0 0 DEVICE_COMMAND_DATA_ADDR bank = some ([], bank) := rfl
    simp only [Nat.zero_min, Nat.add_zero, Nat.sub_zero, hip, ih src bank]

/-- C8 counterexample: the claim quantifies over every buffer-write record
and asserts the loop terminates, but a record with burst chunk size 0 and
padded size 1 never terminates (the remainder never decreases), and neither
does a record with padded page size 0 and a nonzero burst (the per-page loop
index never advances): `write_buffer` yields no action trace for any amount
of fuel. -/
theorem C8_counterexample_degenerate_record_diverges :
    (∀ fuel, write_buffer 1000 1 0 6 8 fuel = none) ∧
    (∀ fuel, write_buffer 1000 1 16 6 0 fuel = none) := by
  constructor
  · intro fuel
    exact write_buffer_loop_burst0_none fuel 1000 0
  · intro fuel
    cases fuel with
    | zero => rfl
    | succ f => rfl
